import Mathlib

/-!
Verification of the RFID2 tag-session module (src/src/modules/rfid/RFID2.cpp).

The embedding models the Arduino `String` values as `List Char`, machine bytes
as `Nat` (always < 256 where produced by hardware), and the MFRC522 reader
controller as an oracle bundle (`Env`): every transport call the code makes is
either answered by an oracle field or recorded in an effect log.
-/

namespace BruceRFID

set_option maxRecDepth 16384

/-- Strings are modelled as lists of characters. -/
abbrev Str := List Char

/-- Characters removed by Arduino `String::trim` (C `isspace`). -/
def isWS (c : Char) : Bool :=
  c == ' ' || c == '\t' || c == '\n' || c == '\x0b' || c == '\x0c' || c == '\r'

/-- Left part of Arduino `String::trim`. -/
def trimL (s : Str) : Str := s.dropWhile isWS

/-- Right part of Arduino `String::trim`. -/
def trimR (s : Str) : Str := (trimL s.reverse).reverse

/-- Arduino `String::trim` (both ends). -/
def trim (s : Str) : Str := trimR (trimL s)

/-- Arduino `String::startsWith`. -/
def startsWith : Str → Str → Bool
  | [], _ => true
  | _ :: _, [] => false
  | p :: ps, c :: cs => p == c && startsWith ps cs

/-- Remainder after the first occurrence of `ch`, if any. -/
def afterFirstAux (ch : Char) : Str → Option Str
  | [] => none
  | c :: cs => if c == ch then some cs else afterFirstAux ch cs

/-- Arduino `s.substring(s.indexOf(ch) + 1)`: when `ch` is absent `indexOf`
yields -1 and the substring is the whole string. -/
def afterFirst (ch : Char) (s : Str) : Str := (afterFirstAux ch s).getD s

/-- Index of the first occurrence of `ch` (Arduino `String::indexOf`). -/
def indexOfOpt (ch : Char) : Str → Option Nat
  | [] => none
  | c :: cs => if c == ch then some 0 else (indexOfOpt ch cs).map (· + 1)

/-- Decimal digit character. -/
def digitChar : Nat → Char
  | 0 => '0' | 1 => '1' | 2 => '2' | 3 => '3' | 4 => '4'
  | 5 => '5' | 6 => '6' | 7 => '7' | 8 => '8' | 9 => '9'
  | _ => '?'

/-- Value of a digit string (used under `takeWhile Char.isDigit`). -/
def digitsVal (s : Str) : Nat := s.foldl (fun a c => 10 * a + (c.toNat - 48)) 0

/-- Fuelled decimal printing of a natural number (most significant first). -/
def natDigits : Nat → Nat → Str
  | 0, _ => []
  | fuel + 1, n => if n < 10 then [digitChar n] else natDigits fuel (n / 10) ++ [digitChar (n % 10)]

/-- Decimal string of a natural number. -/
def natToStr (n : Nat) : Str := natDigits (n + 1) n

/-- Arduino `String(int)`: decimal, '-' sign for negatives. -/
def intToStr (i : Int) : Str := if i < 0 then '-' :: natToStr i.natAbs else natToStr i.toNat

/-- Arduino `String::toInt` (C `atol`): skip leading whitespace, optional
sign, then a run of decimal digits; 0 when no digits follow. -/
def strToInt (s : Str) : Int :=
  match s.dropWhile isWS with
  | [] => 0
  | c :: rest =>
    if c == '-' then - Int.ofNat (digitsVal (rest.takeWhile Char.isDigit))
    else if c == '+' then Int.ofNat (digitsVal (rest.takeWhile Char.isDigit))
    else Int.ofNat (digitsVal ((c :: rest).takeWhile Char.isDigit))

/-- Lower-case hexadecimal digit character. -/
def hexDigitL : Nat → Char
  | 0 => '0' | 1 => '1' | 2 => '2' | 3 => '3' | 4 => '4' | 5 => '5' | 6 => '6' | 7 => '7'
  | 8 => '8' | 9 => '9' | 10 => 'a' | 11 => 'b' | 12 => 'c' | 13 => 'd' | 14 => 'e' | 15 => 'f'
  | _ => '?'

/-- Arduino `String(b, HEX)` for a byte: one lower-case digit below 16, two
otherwise. -/
def strHexLower (b : Nat) : Str :=
  if b < 16 then [hexDigitL b] else [hexDigitL (b / 16), hexDigitL (b % 16)]

/-- ASCII upper-casing of one character. -/
def toUpperChar (c : Char) : Char :=
  if c.toNat ≥ 97 && c.toNat ≤ 122 then Char.ofNat (c.toNat - 32) else c

/-- Arduino `String::toUpperCase`. -/
def toUpper (s : Str) : Str := s.map toUpperChar

/-- One byte rendered as in the read loops: `" 0" + hex` below 0x10, else
`" " + hex`. -/
def hexPad (b : Nat) : Str := (if b < 16 then [' ', '0'] else [' ']) ++ strHexLower b

/-- Hex rendering of a 16-byte block (MIFARE Classic page line body). -/
def bytesHex16 (bytes : List Nat) : Str :=
  toUpper (trim ((List.range 16).foldl (fun s idx => s ++ hexPad (bytes.getD idx 0)) []))

/-- Hex rendering of one 4-byte page out of a 16-byte Ultralight burst. -/
def bytesHex4 (bytes : List Nat) (offset : Nat) : Str :=
  toUpper (trim ((List.range 4).foldl (fun s idx => s ++ hexPad (bytes.getD (4 * offset + idx) 0)) []))

/-- Whether `strtoul(…, 16)` consumes the character. -/
def isHexChar (c : Char) : Bool :=
  c.isDigit || (c.toNat ≥ 97 && c.toNat ≤ 102) || (c.toNat ≥ 65 && c.toNat ≤ 70)

/-- Value of one hexadecimal character. -/
def hexDigitVal (c : Char) : Nat :=
  if c.isDigit then c.toNat - 48
  else if c.toNat ≥ 97 && c.toNat ≤ 102 then c.toNat - 87
  else if c.toNat ≥ 65 && c.toNat ≤ 70 then c.toNat - 55
  else 0

/-- `strtoul(s, NULL, 16)` on a (sub)string: value of the leading hex run. -/
def strtoulHex (s : Str) : Nat :=
  (s.takeWhile isHexChar).foldl (fun a c => 16 * a + hexDigitVal c) 0

/-- Two-character grouping used by the block writers: `buffer[i/2] =
strtoul(data.substring(i, i+2), NULL, 16)` for `i += 2`. -/
def hexPairs : Str → List Nat
  | [] => []
  | [a] => [strtoulHex [a]]
  | a :: b :: rest => strtoulHex [a, b] :: hexPairs rest

/-- Byte buffer parsed from a page-data string after `data.replace(" ", "")`. -/
def hexPairsToBytes (s : Str) : List Nat := hexPairs (s.filter (fun c => !(c == ' ')))

/-- Operation result codes (SUCCESS, FAILURE, TAG_NOT_PRESENT, TAG_NOT_MATCH,
TAG_AUTH_ERROR). -/
inductive RfResult where
  | success | failure | tagNotPresent | tagNotMatch | tagAuthError
deriving DecidableEq

/-- MIFARE key slot selector (PICC_CMD_MF_AUTH_KEY_A / _B). -/
inductive KeyType where
  | keyA | keyB
deriving DecidableEq

/-- Outcome of one `MIFARE_Read` transport call: STATUS_OK with the 16 data
bytes, STATUS_MIFARE_NACK, or any other error status. Only these three cases
are distinguished by the source. -/
inductive ReadResp where
  | ok (bytes : List Nat)
  | nack
  | err
deriving DecidableEq

/-- Tag families distinguished by `PICC_GetType` switches in the source. -/
inductive PiccType where
  | mini | classic1k | classic4k | ultralight | unknown
deriving DecidableEq

/-- A six-byte MIFARE Classic key. -/
abbrev Key := List Nat

/-- Transport calls issued by the session, recorded in order. -/
inductive Effect where
  | auth (kt : KeyType) (blk : Nat) (key : Key)
  | readBlock (addr : Nat)
  | writeClassic (addr : Nat) (bytes : List Nat)
  | writeUL (addr : Nat) (bytes : List Nat)
  | setUidCall
  | halt
  | stopCrypto
deriving DecidableEq

/-- NDEF message template (field `begin`/`end` renamed to `beginByte`/
`endByte`; `end` is a Lean keyword). -/
structure NdefMessage where
  beginByte : Nat
  messageSize : Nat
  header : Nat
  tnf : Nat
  payloadSize : Nat
  payloadType : Nat
  payload : List Nat
  endByte : Nat
deriving DecidableEq

/-- Ambient state and reader-controller oracles for one operation:
`newCardPresent`/`readCardSerial` answer the detect/select calls,
`presentedSak` is `mfrc522.uid.sak`, `storedSak` is `uid.sak` from the loaded
dump, `piccType` the result of `PICC_GetType`, the four oracles answer
`PCD_Authenticate`, `MIFARE_Read`, `MIFARE_Write` and
`MIFARE_Ultralight_Write`, `setUidOk` the `MIFARE_SetUid` backdoor call, and
`dumpLines`/`dataPages`/`totalPages` are the session fields `strAllPages`
(split at newlines), `dataPages` and `totalPages` as they stand when the
operation starts. -/
structure Env where
  newCardPresent : Bool
  readCardSerial : Bool
  presentedSak : Nat
  storedSak : Nat
  piccType : PiccType
  authOracle : KeyType → Nat → Key → Bool
  readOracle : Nat → ReadResp
  writeOracle : Nat → Bool
  ulWriteOracle : Nat → Bool
  setUidOk : Bool
  dumpLines : List Str
  dataPages : Int
  totalPages : Int
  ndef : NdefMessage

/-- The static dictionary from `authenticate_mifare_classic`. The C array is
declared `uint8_t dict_keys[80][6]` with 78 explicit initializers; aggregate
initialization zero-fills the remaining two rows. -/
def dict_keys : List Key :=
  [[0xFF, 0xFF, 0xFF, 0xFF, 0xFF, 0xFF], [0xA0, 0xA1, 0xA2, 0xA3, 0xA4, 0xA5],
   [0xB0, 0xB1, 0xB2, 0xB3, 0xB4, 0xB5], [0x4D, 0x3A, 0x99, 0xC3, 0x51, 0xDD],
   [0x1A, 0x98, 0x2C, 0x7E, 0x45, 0x9A], [0xAA, 0xBB, 0xCC, 0xDD, 0xEE, 0xFF],
   [0x71, 0x4C, 0x5C, 0x88, 0x6E, 0x97], [0x58, 0x7E, 0xE5, 0xF9, 0x35, 0x0F],
   [0xA0, 0x47, 0x8C, 0xC3, 0x90, 0x91], [0x53, 0x3C, 0xB6, 0xC7, 0x23, 0xF6],
   [0x8F, 0xD0, 0xA4, 0xF2, 0x56, 0xE9], [0xA6, 0x45, 0x98, 0xA7, 0x74, 0x78],
   [0x26, 0x94, 0x0B, 0x21, 0xFF, 0x5D], [0xFC, 0x00, 0x01, 0x87, 0x78, 0xF7],
   [0x00, 0x00, 0x0F, 0xFE, 0x24, 0x88], [0xD3, 0xF7, 0xD3, 0xF7, 0xD3, 0xF7],
   [0xA0, 0xB0, 0xC0, 0xD0, 0xE0, 0xF0], [0xA1, 0xB1, 0xC1, 0xD1, 0xE1, 0xF1],
   [0x12, 0x34, 0x56, 0x78, 0x9A, 0xBC], [0x01, 0x02, 0x03, 0x04, 0x05, 0x06],
   [0x11, 0x22, 0x33, 0x44, 0x55, 0x66], [0x99, 0x99, 0x99, 0x99, 0x99, 0x99],
   [0x77, 0x77, 0x77, 0x77, 0x77, 0x77], [0xE1, 0x10, 0xDC, 0x2F, 0x10, 0xDC],
   [0x32, 0xA1, 0x85, 0x33, 0x22, 0x11], [0x44, 0x44, 0x44, 0x44, 0x44, 0x44],
   [0x88, 0x88, 0x88, 0x88, 0x88, 0x88], [0x04, 0x19, 0x2B, 0x27, 0x0B, 0x09],
   [0x19, 0x70, 0x03, 0x03, 0x19, 0x70], [0x10, 0x10, 0x10, 0x10, 0x10, 0x10],
   [0x01, 0x23, 0x45, 0x67, 0x89, 0xAB], [0x41, 0x43, 0x52, 0x31, 0x32, 0x32],
   [0x13, 0x57, 0x9A, 0xDF, 0x26, 0x48], [0xFF, 0x00, 0xFF, 0x00, 0xFF, 0x00],
   [0x00, 0x00, 0x00, 0x00, 0x00, 0x00], [0x14, 0x07, 0x88, 0x14, 0x07, 0x88],
   [0x20, 0x21, 0x22, 0x23, 0x24, 0x25], [0x60, 0x61, 0x62, 0x63, 0x64, 0x65],
   [0x70, 0x71, 0x72, 0x73, 0x74, 0x75], [0x80, 0x81, 0x82, 0x83, 0x84, 0x85],
   [0x90, 0x91, 0x92, 0x93, 0x94, 0x95], [0xA0, 0xB1, 0xC2, 0xD3, 0xE4, 0xF5],
   [0x54, 0x43, 0x52, 0x11, 0x22, 0x33], [0x08, 0x08, 0x08, 0x08, 0x08, 0x08],
   [0x4B, 0x45, 0x59, 0x47, 0x45, 0x4E], [0xAB, 0xCD, 0xEF, 0x12, 0x34, 0x56],
   [0x25, 0x82, 0xA1, 0x99, 0x77, 0x00], [0x12, 0x12, 0x12, 0x12, 0x12, 0x12],
   [0x34, 0x34, 0x34, 0x34, 0x34, 0x34], [0x56, 0x56, 0x56, 0x56, 0x56, 0x56],
   [0x78, 0x78, 0x78, 0x78, 0x78, 0x78], [0x90, 0x90, 0x90, 0x90, 0x90, 0x90],
   [0x22, 0x22, 0x22, 0x22, 0x22, 0x22], [0x33, 0x33, 0x33, 0x33, 0x33, 0x33],
   [0x44, 0x44, 0x44, 0x44, 0x44, 0x44], [0x55, 0x55, 0x55, 0x55, 0x55, 0x55],
   [0x66, 0x66, 0x66, 0x66, 0x66, 0x66], [0xCC, 0xCC, 0xCC, 0xCC, 0xCC, 0xCC],
   [0xEE, 0xEE, 0xEE, 0xEE, 0xEE, 0xEE], [0x11, 0x11, 0x11, 0x11, 0x11, 0x11],
   [0x22, 0x33, 0x44, 0x55, 0x66, 0x77], [0x44, 0x55, 0x66, 0x77, 0x88, 0x99],
   [0x01, 0x02, 0x03, 0x04, 0x05, 0x01], [0xA1, 0xA2, 0xA3, 0xA4, 0xA5, 0xA6],
   [0xB1, 0xB2, 0xB3, 0xB4, 0xB5, 0xB6], [0xC1, 0xC2, 0xC3, 0xC4, 0xC5, 0xC6],
   [0xD1, 0xD2, 0xD3, 0xD4, 0xD5, 0xD6], [0x10, 0x20, 0x30, 0x40, 0x50, 0x60],
   [0x07, 0x07, 0x07, 0x07, 0x07, 0x07], [0x09, 0x09, 0x09, 0x09, 0x09, 0x09],
   [0x1A, 0x2B, 0x3C, 0x4D, 0x5E, 0x6F], [0x6F, 0x5E, 0x4D, 0x3C, 0x2B, 0x1A],
   [0xAA, 0x55, 0xAA, 0x55, 0xAA, 0x55], [0x55, 0xAA, 0x55, 0xAA, 0x55, 0xAA],
   [0x11, 0x11, 0x22, 0x22, 0x33, 0x33], [0x33, 0x33, 0x22, 0x22, 0x11, 0x11],
   [0x4D, 0x49, 0x46, 0x41, 0x52, 0x45], [0x41, 0x42, 0x43, 0x44, 0x45, 0x46],
   [0x00, 0x00, 0x00, 0x00, 0x00, 0x00], [0x00, 0x00, 0x00, 0x00, 0x00, 0x00]]

/-- The loop body of `authenticate_mifare_classic`: for each dictionary key in
order, try Key A then Key B against the trailer block; stop at the first
accepted attempt. Returns the result and the attempts made, in order. -/
def authLoop (env : Env) (trailer : Nat) : List Key → RfResult × List (KeyType × Key)
  | [] => (.tagAuthError, [])
  | k :: ks =>
    if env.authOracle .keyA trailer k then (.success, [(.keyA, k)])
    else if env.authOracle .keyB trailer k then (.success, [(.keyA, k), (.keyB, k)])
    else
      let r := authLoop env trailer ks
      (r.1, (.keyA, k) :: (.keyB, k) :: r.2)

/-- `RFID2::authenticate_mifare_classic(byte block)`: `sector = block / 4`,
`trailerBlock = sector * 4 + 3`, then the dictionary loop. Also returns the
`PCD_Authenticate` calls as effects. -/
def authenticate_mifare_classic (env : Env) (block : Nat) : RfResult × List Effect :=
  let trailerBlock := block / 4 * 4 + 3
  let r := authLoop env trailerBlock dict_keys
  (r.1, r.2.map (fun a => Effect.auth a.1 trailerBlock a.2))

/-- Dump-accumulation state during a read: session fields `dataPages`,
`totalPages`, `strAllPages` (as a list of page lines), plus the effect log. -/
structure DumpSt where
  dataPages : Int
  totalPages : Int
  pages : List Str
  effects : List Effect
deriving DecidableEq

/-- A `"Page <n>: <data>"` line as built by the read loops
(`"Page " + String(dataPages) + ": " + strPage`). -/
def pageLine (idx : Int) (data : Str) : Str :=
  "Page ".data ++ intToStr idx ++ ": ".data ++ data

/-- Block loop of `read_mifare_classic_data_sector`: read each block of the
sector via `MIFARE_Read`, append its page line, count it; any non-OK status
aborts with FAILURE. -/
def read_classic_blocks (env : Env) (firstBlock : Nat) : List Nat → DumpSt → RfResult × DumpSt
  | [], st => (.success, st)
  | off :: rest, st =>
    let addr := firstBlock + off
    match env.readOracle addr with
    | .ok bytes =>
      read_classic_blocks env firstBlock rest
        { st with
          pages := st.pages ++ [pageLine st.dataPages (bytesHex16 bytes)],
          dataPages := st.dataPages + 1,
          effects := st.effects ++ [.readBlock addr] }
    | _ => (.failure, { st with effects := st.effects ++ [.readBlock addr] })

/-- `RFID2::read_mifare_classic_data_sector`: compute the sector's first block
and block count, authenticate (the result check is commented out in the
source, so the status is ignored), then read all blocks of the sector. -/
def read_mifare_classic_data_sector (env : Env) (sector : Nat) (st : DumpSt) : RfResult × DumpSt :=
  if sector < 32 then
    let firstBlock := sector * 4
    let a := authenticate_mifare_classic env firstBlock
    read_classic_blocks env firstBlock (List.range 4) { st with effects := st.effects ++ a.2 }
  else if sector < 40 then
    let firstBlock := 128 + (sector - 32) * 16
    let a := authenticate_mifare_classic env firstBlock
    read_classic_blocks env firstBlock (List.range 16) { st with effects := st.effects ++ a.2 }
  else (.failure, st)

/-- Sector loop of `read_mifare_classic_data_blocks`: read sectors in order,
breaking at the first sector whose read is not SUCCESS. -/
def read_classic_sectors (env : Env) : List Nat → DumpSt → RfResult × DumpSt
  | [], st => (.success, st)
  | s :: rest, st =>
    let r := read_mifare_classic_data_sector env s st
    if r.1 = .success then read_classic_sectors env rest r.2 else r

/-- `RFID2::read_mifare_classic_data_blocks`: set sector count and
`totalPages` from the tag family, run the sector loop (FAILURE when the
family is unknown and the loop never runs), then `PICC_HaltA` and
`PCD_StopCrypto1`. -/
def read_mifare_classic_data_blocks (env : Env) (st : DumpSt) : RfResult × DumpSt :=
  let run := fun (n total : Nat) =>
    let st1 := { st with totalPages := (total : Int) }
    let r := if n == 0 then (RfResult.failure, st1) else read_classic_sectors env (List.range n) st1
    (r.1, { r.2 with effects := r.2.effects ++ [Effect.halt, Effect.stopCrypto] })
  match env.piccType with
  | .mini => run 5 20
  | .classic1k => run 16 64
  | .classic4k => run 40 256
  | _ => run 0 0

/-- Capability-container handling inside the Ultralight page loop: when
`page + offset == 3`, byte `4*offset+2` of the burst selects the declared
total page count (0x12, 0x3E, 0x6D; other values leave it unchanged). -/
def ul_cc_update (page offset : Nat) (bytes : List Nat) (st : DumpSt) : DumpSt :=
  if page + offset == 3 then
    let cc := bytes.getD (4 * offset + 2) 0
    if cc == 0x12 then { st with totalPages := 45 }
    else if cc == 0x3E then { st with totalPages := 135 }
    else if cc == 0x6D then { st with totalPages := 231 }
    else st
  else st

/-- One page (offset 0-3) of a 16-byte Ultralight burst: capability-container
check, then append the page line and advance `dataPages`. -/
def ul_offset_step (page : Nat) (bytes : List Nat) (st : DumpSt) (offset : Nat) : DumpSt :=
  let st := ul_cc_update page offset bytes st
  { st with
    pages := st.pages ++ [pageLine st.dataPages (bytesHex4 bytes offset)],
    dataPages := st.dataPages + 1 }

/-- All four pages of one Ultralight burst. -/
def ul_burst (page : Nat) (bytes : List Nat) (st : DumpSt) : DumpSt :=
  (List.range 4).foldl (ul_offset_step page bytes) st

/-- The burst loop of `read_mifare_ultralight_data_blocks`:
`for (byte page = 0; page <= 252; page += 4)`. `page` is a byte, so after the
burst at 252 it wraps to 0; the loop leaves only through a failing read
(NACK means SUCCESS, any other error FAILURE). `fuel` counts remaining burst
starts: 64 covers every distinct page value 0,4,…,252, and when all 64 bursts
succeed the C loop revisits page 0 with the same deterministic oracle answers
and never terminates, which the model renders as `none`. -/
def ul_go (env : Env) : Nat → Nat → DumpSt → Option (RfResult × DumpSt)
  | 0, _, _ => none
  | fuel + 1, page, st =>
    if page ≤ 252 then
      let st := { st with effects := st.effects ++ [.readBlock page] }
      match env.readOracle page with
      | .ok bytes => ul_go env fuel ((page + 4) % 256) (ul_burst page bytes st)
      | .nack => some (.success, st)
      | .err => some (.failure, st)
    else some (.success, st)

/-- `RFID2::read_mifare_ultralight_data_blocks`. -/
def read_mifare_ultralight_data_blocks (env : Env) (st : DumpSt) : Option (RfResult × DumpSt) :=
  ul_go env 64 0 st

/-- Initial dump state of `read_data_blocks` (`dataPages = 0`, `totalPages =
0`, `strAllPages = ""`). -/
def initDump : DumpSt := ⟨0, 0, [], []⟩

/-- `RFID2::read_data_blocks`: dispatch on the tag family; for Ultralight,
drop the trailing page counter (`dataPages - 1` on success with pages) and
default `totalPages` to `dataPages` when no capability container set it;
finally `PICC_HaltA`. -/
def read_data_blocks (env : Env) : Option (RfResult × DumpSt) :=
  match env.piccType with
  | .mini | .classic1k | .classic4k =>
    let r := read_mifare_classic_data_blocks env initDump
    some (r.1, { r.2 with effects := r.2.effects ++ [.halt] })
  | .ultralight =>
    (read_mifare_ultralight_data_blocks env initDump).map (fun r =>
      let st := r.2
      let dp := if r.1 = .success ∧ st.dataPages > 0 then st.dataPages - 1 else st.dataPages
      let tp := if st.totalPages = 0 then dp else st.totalPages
      (r.1, { st with dataPages := dp, totalPages := tp, effects := st.effects ++ [.halt] }))
  | .unknown => some (.failure, { initDump with effects := [.halt] })

/-- Observable outcome of `RFID2::read`: the returned code, the latched
`pageReadStatus`, the `pageReadSuccess` flag, whether `format_data`/`set_uid`
ran, and the dump state. -/
structure ReadOut where
  result : RfResult
  pageReadStatus : RfResult
  pageReadSuccess : Bool
  dumpFormatted : Bool
  st : DumpSt
deriving DecidableEq

/-- `RFID2::read`: `pageReadStatus = FAILURE`; TAG_NOT_PRESENT unless both
detection and the serial read succeed (previous flag and dump kept);
otherwise run `read_data_blocks`, latch its status, set `pageReadSuccess`,
format the dump, and return SUCCESS. -/
def read (env : Env) (prevFlag : Bool) (prevSt : DumpSt) : Option ReadOut :=
  if env.newCardPresent ∧ env.readCardSerial then
    (read_data_blocks env).map (fun r => ⟨.success, r.1, r.1 == .success, true, r.2⟩)
  else some ⟨.tagNotPresent, .failure, prevFlag, false, prevSt⟩

/-- The session dump as handled by the text codec: the `printableUID` display
fields, the declared total page count, the captured-page counter, the
completeness flag and the page records (index plus hex data as it appears
after the colon of a `Page` line). `bcc` and `totalPages` are session fields
that the file format never carries. -/
structure TagDump where
  picc_type : Str
  uid : Str
  sak : Str
  atqa : Str
  bcc : Str
  totalPages : Int
  dataPages : Int
  pageReadSuccess : Bool
  pages : List (Int × Str)
deriving DecidableEq

/-- The lines written by `RFID2::save` (in `println` order; page lines come
from `strAllPages`, one `"Page <n>: <data>"` line per record). -/
def save_lines (d : TagDump) : List Str :=
  ["Filetype: Bruce RFID File".data,
   "Version 1".data,
   "Device type: ".data ++ d.picc_type,
   "# UID, ATQA and SAK are common for all formats".data,
   "UID: ".data ++ d.uid,
   "SAK: ".data ++ d.sak,
   "ATQA: ".data ++ d.atqa,
   "# Memory dump".data,
   "Pages total: ".data ++ intToStr d.dataPages]
  ++ (if d.pageReadSuccess then [] else ["Pages read: ".data ++ intToStr d.dataPages])
  ++ d.pages.map (fun r => pageLine r.1 r.2)

/-- Parsing of one `Page` line as done by `write_data_blocks`:
`pageIndex = line.substring(5, line.indexOf(":")).toInt()` and
`strBytes = line.substring(line.indexOf(":") + 1)` trimmed. (When the line
has no colon, `indexOf` yields -1, which the unsigned `substring` bound
clamps to the end of the line; `Page` lines always carry their colon.) -/
def parsePageLine (line : Str) : Int × Str :=
  let idxStr :=
    match indexOfOpt ':' line with
    | some j => (line.drop 5).take (j - 5)
    | none => line.drop 5
  (strToInt idxStr, trim (afterFirst ':' line))

/-- Per-line step of the `RFID2::load` parse loop: match the known header
prefixes, and collect `Page` lines (the code appends the raw line to
`strAllPages`; the model keeps the parsed record). -/
def load_step (st : TagDump) (line : Str) : TagDump :=
  let strData := trim (afterFirst ':' line)
  let st := if startsWith ("Device type:".data) line then { st with picc_type := strData } else st
  let st := if startsWith ("UID:".data) line then { st with uid := strData } else st
  let st := if startsWith ("SAK:".data) line then { st with sak := strData } else st
  let st := if startsWith ("ATQA:".data) line then { st with atqa := strData } else st
  let st := if startsWith ("Pages total:".data) line then { st with dataPages := strToInt strData } else st
  let st := if startsWith ("Pages read:".data) line then { st with pageReadSuccess := false } else st
  let st := if startsWith ("Page ".data) line then { st with pages := st.pages ++ [parsePageLine line] } else st
  st

/-- `RFID2::load` on a list of file lines: reset `strAllPages` and
`pageReadSuccess` (lines 128-129), then fold the parse loop over the lines.
Fields the file does not carry keep their prior session value. -/
def load_lines (lines : List Str) (init : TagDump) : TagDump :=
  lines.foldl load_step { init with pages := [], pageReadSuccess := true }

/-- `RFID2::write_mifare_classic_data_block`: parse the hex bytes,
authenticate the block's sector, then `MIFARE_Write`. Returns success and the
transport calls made. The `int` block is truncated to a byte. -/
def write_mifare_classic_data_block (env : Env) (block : Int) (data : Str) : Bool × List Effect :=
  let bytes := hexPairsToBytes data
  let b := (block % 256).toNat
  let a := authenticate_mifare_classic env b
  if a.1 ≠ .success then (false, a.2)
  else (env.writeOracle b, a.2 ++ [.writeClassic b bytes])

/-- `RFID2::write_mifare_ultralight_data_block`: parse the hex bytes and
issue `MIFARE_Ultralight_Write`. -/
def write_mifare_ultralight_data_block (env : Env) (block : Int) (data : Str) : Bool × List Effect :=
  let bytes := hexPairsToBytes data
  let b := (block % 256).toNat
  (env.ulWriteOracle b, [.writeUL b bytes])

/-- Line loop of `RFID2::write_data_blocks`: parse each page line, skip page
0, skip MIFARE Classic trailer blocks (`(index+1) % 4 == 0`), skip Ultralight
pages outside `4 ≤ index < dataPages - 5`, write the rest, and stop with
FAILURE at the first failed write (an unknown tag family fails immediately on
its first considered line). -/
def write_data_blocks_go (env : Env) : List Str → RfResult × List Effect
  | [] => (.success, [])
  | line :: rest =>
    let pr := parsePageLine line
    let pageIndex := pr.1
    let strBytes := pr.2
    if pageIndex == 0 then write_data_blocks_go env rest
    else
      match env.piccType with
      | .mini | .classic1k | .classic4k =>
        if (pageIndex + 1) % 4 == 0 then write_data_blocks_go env rest
        else
          let w := write_mifare_classic_data_block env pageIndex strBytes
          if w.1 then
            let r := write_data_blocks_go env rest
            (r.1, w.2 ++ r.2)
          else (.failure, w.2)
      | .ultralight =>
        if pageIndex < 4 ∨ pageIndex ≥ env.dataPages - 5 then write_data_blocks_go env rest
        else
          let w := write_mifare_ultralight_data_block env pageIndex strBytes
          if w.1 then
            let r := write_data_blocks_go env rest
            (r.1, w.2 ++ r.2)
          else (.failure, w.2)
      | .unknown => (.failure, [])

/-- `RFID2::write_data_blocks` over the session dump lines. -/
def write_data_blocks (env : Env) : RfResult × List Effect :=
  write_data_blocks_go env env.dumpLines

/-- The 16-byte all-zero data string used by `erase_data_blocks`. -/
def zeros16 : Str := "00 00 00 00 00 00 00 00 00 00 00 00 00 00 00 00".data

/-- Classic branch of `erase_data_blocks`: blocks 1..63, skipping trailer
blocks, each overwritten with 16 zero bytes; stop at the first failure. -/
def erase_classic_go (env : Env) : List Nat → RfResult × List Effect
  | [] => (.success, [])
  | i :: rest =>
    if (i + 1) % 4 == 0 then erase_classic_go env rest
    else
      let w := write_mifare_classic_data_block env (Int.ofNat i) zeros16
      if w.1 then
        let r := erase_classic_go env rest
        (r.1, w.2 ++ r.2)
      else (.failure, w.2)

/-- Ultralight erase loop: pages 5..129 zeroed; stop at the first failure. -/
def erase_ul_go (env : Env) : List Nat → RfResult × List Effect
  | [] => (.success, [])
  | i :: rest =>
    let w := write_mifare_ultralight_data_block env (Int.ofNat i) ("00 00 00 00".data)
    if w.1 then
      let r := erase_ul_go env rest
      (r.1, w.2 ++ r.2)
    else (.failure, w.2)

/-- `RFID2::erase_data_blocks`: Classic tags get blocks 1..63 zeroed (minus
trailers); Ultralight tags get the empty-NDEF TLV `03 00 FE 00` at page 4 and
zeros on pages 5..129; unknown families succeed vacuously. -/
def erase_data_blocks (env : Env) : RfResult × List Effect :=
  match env.piccType with
  | .mini | .classic1k | .classic4k => erase_classic_go env (List.range' 1 63)
  | .ultralight =>
    let w := write_mifare_ultralight_data_block env 4 ("03 00 FE 00".data)
    if w.1 then
      let r := erase_ul_go env (List.range' 5 125)
      (r.1, w.2 ++ r.2)
    else (.failure, w.2)
  | .unknown => (.success, [])

/-- The NDEF byte buffer built by `write_ndef_blocks` (lines 563-582): size
`messageSize + 3` rounded up to a multiple of 4, header bytes at 0-5, payload
from 6, end marker at `ndef_size - 1`, zero padding. The C stack buffer is
modelled zero-initialised; no claim depends on residual bytes. -/
def ndefBuffer (m : NdefMessage) : List Nat :=
  let ndefSize := m.messageSize + 3
  let payloadSize := if ndefSize % 4 == 0 then ndefSize else ndefSize + (4 - ndefSize % 4)
  let b := List.replicate payloadSize 0
  let b := (((((b.set 0 m.beginByte).set 1 m.messageSize).set 2 m.header).set 3 m.tnf).set 4 m.payloadSize).set 5 m.payloadType
  let b := (List.range m.payloadSize).foldl (fun acc i => acc.set (i + 6) (m.payload.getD i 0)) b
  b.set (ndefSize - 1) m.endByte

/-- Write loop of `write_ndef_blocks`: 4-byte chunks to pages 4, 5, …;
FAILURE on the first rejected write. -/
def ndef_write_go (env : Env) (buf : List Nat) : List Nat → RfResult × List Effect
  | [] => (.success, [])
  | j :: rest =>
    let block := 4 + j
    let chunk := ((buf.drop (4 * j)).take 4)
    if env.ulWriteOracle block then
      let r := ndef_write_go env buf rest
      (r.1, Effect.writeUL block chunk :: r.2)
    else (.failure, [Effect.writeUL block chunk])

/-- `RFID2::write_ndef_blocks`: Ultralight only (TAG_NOT_MATCH otherwise). -/
def write_ndef_blocks (env : Env) : RfResult × List Effect :=
  if env.piccType ≠ .ultralight then (.tagNotMatch, [])
  else
    let buf := ndefBuffer env.ndef
    ndef_write_go env buf (List.range (buf.length / 4))

/-- `RFID2::write`: detect+select, SAK comparison (TAG_NOT_MATCH returns
before any halt), then `write_data_blocks`, `PICC_HaltA`,
`PCD_StopCrypto1`. -/
def write_op (env : Env) : RfResult × List Effect :=
  if env.newCardPresent ∧ env.readCardSerial then
    if env.presentedSak ≠ env.storedSak then (.tagNotMatch, [])
    else
      let r := write_data_blocks env
      (r.1, r.2 ++ [.halt, .stopCrypto])
  else (.tagNotPresent, [])

/-- `RFID2::write_ndef`: detect+select, `write_ndef_blocks`, `PICC_HaltA`,
`PCD_StopCrypto1`. No SAK comparison. -/
def write_ndef_op (env : Env) : RfResult × List Effect :=
  if env.newCardPresent ∧ env.readCardSerial then
    let r := write_ndef_blocks env
    (r.1, r.2 ++ [.halt, .stopCrypto])
  else (.tagNotPresent, [])

/-- `RFID2::erase`: detect+select, `erase_data_blocks`, `PICC_HaltA`,
`PCD_StopCrypto1`. No SAK comparison. -/
def erase_op (env : Env) : RfResult × List Effect :=
  if env.newCardPresent ∧ env.readCardSerial then
    let r := erase_data_blocks env
    (r.1, r.2 ++ [.halt, .stopCrypto])
  else (.tagNotPresent, [])

/-- `RFID2::clone`: detect+select, SAK comparison (TAG_NOT_MATCH returns with
no halt), `MIFARE_SetUid`, `PICC_HaltA`. `PCD_StopCrypto1` is never called on
this path. -/
def clone_op (env : Env) : RfResult × List Effect :=
  if env.newCardPresent ∧ env.readCardSerial then
    if env.presentedSak ≠ env.storedSak then (.tagNotMatch, [])
    else ((if env.setUidOk then .success else .failure), [.setUidCall, .halt])
  else (.tagNotPresent, [])

/-- Trailer block of the sector containing `block`, following the spec's
addressing words (sectors 0-31 hold 4 blocks, sectors 32-39 hold 16): the
sector's last block. Stated from the spec for comparison with the code's
`block / 4 * 4 + 3`. -/
def spec_sector_trailer (block : Nat) : Nat :=
  if block < 128 then block / 4 * 4 + 3 else 128 + (block - 128) / 16 * 16 + 15

/-- The attempt sequence the dictionary loop makes: each key as Key A, then
as Key B, in table order. -/
def keyAttempts : List Key → List (KeyType × Key)
  | [] => []
  | k :: ks => (KeyType.keyA, k) :: (KeyType.keyB, k) :: keyAttempts ks

/-- Attempts up to and including the first accepted one (all of them when
none is accepted). -/
def firstAccepted (env : Env) (t : Nat) : List (KeyType × Key) → List (KeyType × Key)
  | [] => []
  | a :: rest => if env.authOracle a.1 t a.2 then [a] else a :: firstAccepted env t rest

/-- The 64 burst start pages of the Ultralight read loop: 0, 4, …, 252. -/
def burstStarts : List Nat := (List.range 64).map (fun k => 4 * k)

/-- Whether a transport read answer is STATUS_OK. -/
def isOkResp : ReadResp → Bool
  | .ok _ => true
  | _ => false

/-- First-pass rendering of the Ultralight burst loop over an explicit list
of burst starts (used to reason about `ul_go` by list induction). -/
def processBursts (env : Env) : List Nat → DumpSt → Option (RfResult × DumpSt)
  | [], _ => none
  | p :: rest, st =>
    let st := { st with effects := st.effects ++ [.readBlock p] }
    match env.readOracle p with
    | .ok bytes => processBursts env rest (ul_burst p bytes st)
    | .nack => some (.success, st)
    | .err => some (.failure, st)

/-- First block of a sector, as computed by
`read_mifare_classic_data_sector` (4-block sectors 0-31, 16-block sectors
32-39). -/
def firstBlockOf (sector : Nat) : Nat :=
  if sector < 32 then sector * 4 else 128 + (sector - 32) * 16

/-- Sample oracle environment: tag present, matching SAK 0x08, MIFARE 1K,
every authentication attempt and write accepted, every block read answered
with 16 zero bytes. -/
def envBase : Env :=
  { newCardPresent := true, readCardSerial := true, presentedSak := 8, storedSak := 8,
    piccType := .classic1k,
    authOracle := fun _ _ _ => true, readOracle := fun _ => .ok (List.replicate 16 0),
    writeOracle := fun _ => true, ulWriteOracle := fun _ => true, setUidOk := true,
    dumpLines := [], dataPages := 0, totalPages := 0,
    ndef := ⟨0x03, 5, 0xD1, 0x01, 1, 0x54, [0x41], 0xFE⟩ }

/-- Environment whose tag accepts any key, but only at block 143 (the true
trailer of 4K sector 32). -/
def envAuthCtr : Env := { envBase with authOracle := fun _ blk _ => blk == 143 }

/-- Environment whose tag rejects every authentication attempt. -/
def envAuthNone : Env := { envBase with authOracle := fun _ _ _ => false }

/-- MIFARE Mini tag that rejects every authentication attempt but answers
every block read. -/
def envC5x : Env := { envBase with piccType := .mini, authOracle := fun _ _ _ => false }

/-- Environment holding a tag of no supported family. -/
def envC2x : Env := { envBase with piccType := .unknown }

/-- Ultralight tag whose first burst carries capability container 0x12 and
which answers NACK from page 4 on. -/
def envC6x : Env :=
  { envBase with
    piccType := .ultralight,
    readOracle := fun p =>
      if p == 0 then .ok [0, 0, 0, 0, 0, 0, 0, 0, 0, 0, 0, 0, 0, 0, 0x12, 0] else .nack }

/-- Session about to write an NTAG213-style dump back: declared total pages
45, captured counter 47, and a record for page 41 present. -/
def envC7x : Env :=
  { envBase with
    piccType := .ultralight,
    dumpLines := [pageLine 41 ("AA BB CC DD".data)], dataPages := 47, totalPages := 45 }

/-- Ultralight session whose presented tag SAK differs from the stored one. -/
def envC4x : Env := { envBase with piccType := .ultralight, presentedSak := 8, storedSak := 9 }

/-- Dump outcome of `read` on `envC2x`. -/
def outC2x : ReadOut := ⟨.success, .failure, false, true, ⟨0, 0, [], [.halt]⟩⟩

/-- Dump state produced by `read_data_blocks` on `envC6x`. -/
def stC6x : DumpSt :=
  ⟨3, 45,
   ["Page 0: 00 00 00 00".data, "Page 1: 00 00 00 00".data,
    "Page 2: 00 00 00 00".data, "Page 3: 00 00 12 00".data],
   [.readBlock 0, .readBlock 4, .halt]⟩

/-- Concrete dump used to exercise the codec. -/
def dumpW : TagDump :=
  { picc_type := "MIFARE 1K".data, uid := "AA BB CC DD".data, sak := "08".data,
    atqa := "00 04".data, bcc := "EE".data, totalPages := 64, dataPages := 2,
    pageReadSuccess := false, pages := [(1, "00 11 22 33".data), (41, "AA BB CC DD".data)] }

/-- Burst starts from the k-th one on: 4k, 4(k+1), …, 252. -/
def burstStartsFrom (k : Nat) : List Nat := (List.range (64 - k)).map (fun j => 4 * (k + j))

/-- `dropWhile` is the identity when no element satisfies the predicate. -/
theorem dropWhile_eq_self_of_forall {p : Char → Bool} :
    ∀ {l : Str}, (∀ c ∈ l, p c = false) → l.dropWhile p = l
  | [], _ => rfl
  | c :: cs, h => by simp [List.dropWhile, h c (List.mem_cons_self c cs)]

/-- `takeWhile` is the identity when every element satisfies the predicate. -/
theorem takeWhile_eq_self_of_forall {p : Char → Bool} {l : Str} (h : ∀ c ∈ l, p c = true) :
    l.takeWhile p = l := by
  induction l with
  | nil => rfl
  | cons c cs ih =>
    rw [List.takeWhile_cons_of_pos (h c (List.mem_cons_self c cs)),
      ih (fun x hx => h x (List.mem_cons_of_mem c hx))]

/-- `trim` is the identity on strings with no whitespace characters. -/
theorem trim_eq_self_of_forall {l : Str} (h : ∀ c ∈ l, isWS c = false) : trim l = l := by
  have h1 : trimL l = l := dropWhile_eq_self_of_forall h
  have h2 : trimL l.reverse = l.reverse :=
    dropWhile_eq_self_of_forall (fun c hc => h c (List.mem_reverse.mp hc))
  simp only [trim, trimR, h1, h2, List.reverse_reverse]

/-- A leading blank is removed by `trim`. -/
theorem trim_cons_space (s : Str) : trim (' ' :: s) = trim s := by
  simp [trim, trimL, List.dropWhile, isWS]

/-- The characters printed by `natDigits` are digit characters. -/
theorem natDigits_chars : ∀ fuel n c, c ∈ natDigits fuel n → ∃ m, m < 10 ∧ c = digitChar m := by
  intro fuel
  induction fuel with
  | zero => intro n c hc; simp [natDigits] at hc
  | succ fuel ih =>
    intro n c hc
    by_cases h10 : n < 10
    · simp [natDigits, h10] at hc
      exact ⟨n, h10, hc⟩
    · simp [natDigits, h10] at hc
      rcases hc with hc | hc
      · exact ih _ _ hc
      · exact ⟨n % 10, Nat.mod_lt _ (by omega), hc⟩

/-- Value of a digit character. -/
theorem digitChar_val {m : Nat} (h : m < 10) : (digitChar m).toNat - 48 = m := by
  interval_cases m <;> decide

/-- Digit characters are digits. -/
theorem digitChar_isDigit {m : Nat} (h : m < 10) : (digitChar m).isDigit = true := by
  interval_cases m <;> decide

/-- Digit characters are not whitespace. -/
theorem digitChar_not_ws {m : Nat} (h : m < 10) : isWS (digitChar m) = false := by
  interval_cases m <;> decide

/-- Digit characters are not sign characters. -/
theorem digitChar_not_sign {m : Nat} (h : m < 10) :
    (digitChar m == '-') = false ∧ (digitChar m == '+') = false := by
  interval_cases m <;> exact ⟨rfl, rfl⟩

/-- Digit characters are not the colon. -/
theorem digitChar_ne_colon {m : Nat} (h : m < 10) : (digitChar m == ':') = false := by
  interval_cases m <;> rfl

/-- Appending one character multiplies the accumulated value by ten. -/
theorem digitsVal_append (l : Str) (c : Char) :
    digitsVal (l ++ [c]) = 10 * digitsVal l + (c.toNat - 48) := by
  simp [digitsVal, List.foldl_append]

/-- `natDigits` prints the decimal value back, given enough fuel. -/
theorem natDigits_sound : ∀ fuel n, n ≤ fuel → digitsVal (natDigits (fuel + 1) n) = n := by
  intro fuel
  induction fuel with
  | zero =>
    intro n h
    have : n = 0 := by omega
    subst this
    decide
  | succ fuel ih =>
    intro n h
    by_cases h10 : n < 10
    · simp [natDigits, h10, digitsVal, List.foldl]
      have := digitChar_val h10
      omega
    · have hstep : natDigits (fuel + 1 + 1) n
          = natDigits (fuel + 1) (n / 10) ++ [digitChar (n % 10)] := by
        simp [natDigits, h10]
      rw [hstep, digitsVal_append, ih (n / 10) (by omega)]
      have := digitChar_val (Nat.mod_lt n (show 0 < 10 by omega) : n % 10 < 10)
      omega

/-- `natToStr` never prints the empty string. -/
theorem natToStr_ne_nil (n : Nat) : natToStr n ≠ [] := by
  by_cases h10 : n < 10 <;> simp [natToStr, natDigits, h10]

/-- Characters of `natToStr` are digit characters. -/
theorem natToStr_chars {n : Nat} {c : Char} (hc : c ∈ natToStr n) :
    ∃ m, m < 10 ∧ c = digitChar m :=
  natDigits_chars _ _ _ hc

/-- Parsing the decimal print of a natural number recovers it. -/
theorem strToInt_natToStr (n : Nat) : strToInt (natToStr n) = Int.ofNat n := by
  have hchars := fun c hc => natToStr_chars (n := n) (c := c) hc
  have hws : ∀ c ∈ natToStr n, isWS c = false := by
    intro c hc
    obtain ⟨m, hm, rfl⟩ := hchars c hc
    exact digitChar_not_ws hm
  have hdig : ∀ c ∈ natToStr n, c.isDigit = true := by
    intro c hc
    obtain ⟨m, hm, rfl⟩ := hchars c hc
    exact digitChar_isDigit hm
  have hdrop : (natToStr n).dropWhile isWS = natToStr n := dropWhile_eq_self_of_forall hws
  have htake : (natToStr n).takeWhile Char.isDigit = natToStr n := takeWhile_eq_self_of_forall hdig
  rcases hhead : natToStr n with _ | ⟨c, rest⟩
  · exact absurd hhead (natToStr_ne_nil n)
  · have hcm := hchars c (by rw [hhead]; exact List.mem_cons_self c rest)
    obtain ⟨m, hm, rfl⟩ := hcm
    rw [hhead] at hdrop htake
    simp only [strToInt, hdrop, (digitChar_not_sign hm).1, (digitChar_not_sign hm).2,
      Bool.false_eq_true, if_false, htake]
    have hval := natDigits_sound n n (Nat.le_refl n)
    simp only [natToStr] at hhead
    rw [show digitChar m :: rest = natDigits (n + 1) n from hhead.symm, hval]

/-- Parsing the decimal print of an `int` recovers it. -/
theorem strToInt_intToStr (i : Int) : strToInt (intToStr i) = i := by
  by_cases h : i < 0
  · have habs : intToStr i = '-' :: natToStr i.natAbs := by simp [intToStr, h]
    have hchars := fun c hc => natToStr_chars (n := i.natAbs) (c := c) hc
    have hdig : ∀ c ∈ natToStr i.natAbs, c.isDigit = true := by
      intro c hc
      obtain ⟨m, hm, rfl⟩ := hchars c hc
      exact digitChar_isDigit hm
    have hdrop : ('-' :: natToStr i.natAbs).dropWhile isWS = '-' :: natToStr i.natAbs := by
      simp [List.dropWhile, isWS]
    rw [habs]
    simp only [strToInt, hdrop]
    norm_num
    rw [takeWhile_eq_self_of_forall hdig]
    have hval : digitsVal (natToStr i.natAbs) = i.natAbs :=
      natDigits_sound i.natAbs i.natAbs (Nat.le_refl _)
    rw [hval]
    omega
  · have habs : intToStr i = natToStr i.toNat := by simp [intToStr, h]
    rw [habs, strToInt_natToStr]
    exact Int.toNat_of_nonneg (le_of_not_lt h)

/-- Characters of `intToStr` are digits or a leading minus sign. -/
theorem intToStr_chars {i : Int} {c : Char} (hc : c ∈ intToStr i) :
    c = '-' ∨ ∃ m, m < 10 ∧ c = digitChar m := by
  by_cases h : i < 0
  · simp [intToStr, h] at hc
    rcases hc with rfl | hc
    · exact Or.inl rfl
    · exact Or.inr (natToStr_chars hc)
  · simp [intToStr, h] at hc
    exact Or.inr (natToStr_chars hc)

/-- `intToStr` contains no whitespace, so `trim` leaves it unchanged. -/
theorem trim_intToStr (i : Int) : trim (intToStr i) = intToStr i := by
  apply trim_eq_self_of_forall
  intro c hc
  rcases intToStr_chars hc with rfl | ⟨m, hm, rfl⟩
  · decide
  · exact digitChar_not_ws hm

/-- `intToStr` never prints a colon. -/
theorem intToStr_ne_colon {i : Int} {c : Char} (hc : c ∈ intToStr i) : (c == ':') = false := by
  rcases intToStr_chars hc with rfl | ⟨m, hm, rfl⟩
  · rfl
  · exact digitChar_ne_colon hm

/-- The dictionary loop tries `keyAttempts` in order and stops at the first
accepted attempt; exhausting them yields TAG_AUTH_ERROR. -/
theorem authLoop_spec (env : Env) (t : Nat) (ks : List Key) :
    authLoop env t ks =
      ((if (keyAttempts ks).any (fun a => env.authOracle a.1 t a.2) then RfResult.success
        else RfResult.tagAuthError),
       firstAccepted env t (keyAttempts ks)) := by
  induction ks with
  | nil => simp [authLoop, keyAttempts, firstAccepted]
  | cons k ks ih =>
    by_cases hA : env.authOracle .keyA t k
    · simp [authLoop, keyAttempts, firstAccepted, hA]
    · by_cases hB : env.authOracle .keyB t k
      · simp [authLoop, keyAttempts, firstAccepted, hA, hB]
      · have ha' : env.authOracle .keyA t k = false := by simpa using hA
        have hb' : env.authOracle .keyB t k = false := by simpa using hB
        have hstep : authLoop env t (k :: ks)
            = ((authLoop env t ks).1,
               (KeyType.keyA, k) :: (KeyType.keyB, k) :: (authLoop env t ks).2) := by
          simp [authLoop, ha', hb']
        have hcond : (keyAttempts (k :: ks)).any (fun a => env.authOracle a.1 t a.2)
            = (keyAttempts ks).any (fun a => env.authOracle a.1 t a.2) := by
          simp [keyAttempts, ha', hb']
        have hfa : firstAccepted env t (keyAttempts (k :: ks))
            = (KeyType.keyA, k) :: (KeyType.keyB, k) :: firstAccepted env t (keyAttempts ks) := by
          simp [keyAttempts, firstAccepted, ha', hb']
        rw [hstep, ih, hcond, hfa]

/-- When no attempt is accepted, `firstAccepted` runs through the whole
attempt list. -/
theorem firstAccepted_all (env : Env) (t : Nat) :
    ∀ l, (∀ a ∈ l, env.authOracle a.1 t a.2 = false) → firstAccepted env t l = l := by
  intro l
  induction l with
  | nil => intro _; rfl
  | cons a rest ih =>
    intro h
    simp [firstAccepted, h a (List.mem_cons_self a rest)]
    exact ih (fun x hx => h x (List.mem_cons_of_mem a hx))

/-- C1 (amended). `authenticate_mifare_classic` tries the 80 dictionary keys
in table order, each first as Key A and then as Key B, against block
`block / 4 * 4 + 3`; it returns Success on the first accepted attempt and
TagAuthError exactly when all 160 attempts are rejected, in which case
exactly 160 attempts were made. The target block is the trailer block of the
sector containing `block` for blocks below 128 (sectors 0-31), but not in
general for 4K blocks 128-255. -/
theorem claim_C1 (env : Env) (block : Nat) :
    (authenticate_mifare_classic env block =
      ((if (keyAttempts dict_keys).any (fun a => env.authOracle a.1 (block / 4 * 4 + 3) a.2)
          then RfResult.success else RfResult.tagAuthError),
        (firstAccepted env (block / 4 * 4 + 3) (keyAttempts dict_keys)).map
          (fun a => Effect.auth a.1 (block / 4 * 4 + 3) a.2)))
    ∧ ((∀ a ∈ keyAttempts dict_keys, env.authOracle a.1 (block / 4 * 4 + 3) a.2 = false) →
        (authenticate_mifare_classic env block).2.length = 160)
    ∧ (block < 128 → block / 4 * 4 + 3 = spec_sector_trailer block) := by
  refine ⟨?_, ?_, ?_⟩
  · simp [authenticate_mifare_classic, authLoop_spec]
  · intro hall
    simp [authenticate_mifare_classic, authLoop_spec, firstAccepted_all env _ _ hall]
    rfl
  · intro h
    simp [spec_sector_trailer, h]

/-- C1 witness: with every attempt rejected, authenticating block 4 makes
exactly 160 attempts, returns TagAuthError, and block 4's target 7 is its
sector trailer. -/
theorem claim_C1_witness :
    (authenticate_mifare_classic envAuthNone 4).2.length = 160
    ∧ 4 / 4 * 4 + 3 = spec_sector_trailer 4
    ∧ (authenticate_mifare_classic envAuthNone 4 =
      ((if (keyAttempts dict_keys).any
            (fun a => envAuthNone.authOracle a.1 (4 / 4 * 4 + 3) a.2)
          then RfResult.success else RfResult.tagAuthError),
        (firstAccepted envAuthNone (4 / 4 * 4 + 3) (keyAttempts dict_keys)).map
          (fun a => Effect.auth a.1 (4 / 4 * 4 + 3) a.2))) :=
  ⟨(claim_C1 envAuthNone 4).2.1 (by decide),
   (claim_C1 envAuthNone 4).2.2 (by decide),
   (claim_C1 envAuthNone 4).1⟩

/-- C1 counterexample: block 128 lies in 4K sector 32, whose trailer block is
143; against a tag that accepts every key at block 143 (and only there), the
claim predicts Success on the first attempt, but the code authenticates
against block 131 and returns TagAuthError. -/
theorem claim_C1_counterexample :
    spec_sector_trailer 128 = 143
    ∧ envAuthCtr.authOracle KeyType.keyA 143 [0xFF, 0xFF, 0xFF, 0xFF, 0xFF, 0xFF] = true
    ∧ (authenticate_mifare_classic envAuthCtr 128).1 = RfResult.tagAuthError := by
  refine ⟨by decide, by decide, by decide⟩

/-- C4 (amended). After successful detection and selection, `write` requires
the presented tag's SAK to equal the stored dump's SAK and returns
TagMismatch without any transport call when they differ; `erase` performs no
SAK comparison at all — its result and transport calls are unchanged under
any stored SAK. -/
theorem claim_C4 (env : Env) (hp : env.newCardPresent = true) (hs : env.readCardSerial = true) :
    (env.presentedSak ≠ env.storedSak → write_op env = (RfResult.tagNotMatch, []))
    ∧ (∀ s, erase_op { env with storedSak := s } = erase_op env) := by
  constructor
  · intro hne
    simp [write_op, hp, hs, hne]
  · intro s
    rfl

/-- C4 witness: on a matching-detection environment, `write` with unequal
SAKs mismatches with no transport call, and `erase` ignores the stored SAK. -/
theorem claim_C4_witness :
    (write_op envC4x = (RfResult.tagNotMatch, []))
    ∧ (erase_op { envC4x with storedSak := 77 } = erase_op envC4x) :=
  ⟨(claim_C4 envC4x rfl rfl).1 (by decide), (claim_C4 envC4x rfl rfl).2 77⟩

/-- C4 counterexample: with the presented SAK 8 differing from the stored
SAK 9, `erase` does not return TagMismatch — it runs the Ultralight erase to
completion, issuing the page-4 NDEF marker write among its transport
writes. -/
theorem claim_C4_counterexample :
    envC4x.presentedSak ≠ envC4x.storedSak
    ∧ (erase_op envC4x).1 = RfResult.success
    ∧ (erase_op envC4x).1 ≠ RfResult.tagNotMatch
    ∧ Effect.writeUL 4 [0x03, 0x00, 0xFE, 0x00] ∈ (erase_op envC4x).2 := by
  refine ⟨by decide, by decide, by decide, by decide⟩

/-- C9 (amended). After successful detection and selection: `erase` and
`writeNdef` terminate with a halt followed by a crypto-stop on every outcome;
`write` does so except on its TagMismatch path, which issues neither; `clone`
issues only a halt — never a crypto-stop — and also issues neither on its own
TagMismatch path. -/
theorem claim_C9 (env : Env) (hp : env.newCardPresent = true) (hs : env.readCardSerial = true) :
    ((erase_op env).2 = (erase_data_blocks env).2 ++ [Effect.halt, Effect.stopCrypto])
    ∧ ((write_ndef_op env).2 = (write_ndef_blocks env).2 ++ [Effect.halt, Effect.stopCrypto])
    ∧ (env.presentedSak = env.storedSak →
        (write_op env).2 = (write_data_blocks env).2 ++ [Effect.halt, Effect.stopCrypto])
    ∧ (env.presentedSak ≠ env.storedSak → write_op env = (RfResult.tagNotMatch, []))
    ∧ (env.presentedSak = env.storedSak →
        clone_op env = ((if env.setUidOk then RfResult.success else RfResult.failure),
          [Effect.setUidCall, Effect.halt])
        ∧ Effect.stopCrypto ∉ (clone_op env).2)
    ∧ (env.presentedSak ≠ env.storedSak → clone_op env = (RfResult.tagNotMatch, [])) := by
  refine ⟨?_, ?_, ?_, ?_, ?_, ?_⟩
  · simp [erase_op, hp, hs]
  · simp [write_ndef_op, hp, hs]
  · intro he; simp [write_op, hp, hs, he]
  · intro hne; simp [write_op, hp, hs, hne]
  · intro he
    constructor
    · simp [clone_op, hp, hs, he]
    · simp [clone_op, hp, hs, he]
  · intro hne; simp [clone_op, hp, hs, hne]

/-- C9 witness: on the sample environment (SAKs equal), erase and write logs
end in halt then crypto-stop, and a successful clone logs exactly a backdoor
UID write and a halt, with no crypto-stop. -/
theorem claim_C9_witness :
    ((erase_op envBase).2 = (erase_data_blocks envBase).2 ++ [Effect.halt, Effect.stopCrypto])
    ∧ ((write_op envBase).2 = (write_data_blocks envBase).2 ++ [Effect.halt, Effect.stopCrypto])
    ∧ (clone_op envBase = (RfResult.success, [Effect.setUidCall, Effect.halt])
        ∧ Effect.stopCrypto ∉ (clone_op envBase).2) :=
  ⟨(claim_C9 envBase rfl rfl).1,
   (claim_C9 envBase rfl rfl).2.2.1 rfl,
   by
    have h := (claim_C9 envBase rfl rfl).2.2.2.2.1 rfl
    simpa using h⟩

/-- C9 counterexample: a successful clone (detection ok, SAKs equal, backdoor
write accepted) issues a halt but never the crypto-stop the claim requires of
every outcome. -/
theorem claim_C9_counterexample :
    clone_op envBase = (RfResult.success, [Effect.setUidCall, Effect.halt])
    ∧ Effect.stopCrypto ∉ (clone_op envBase).2 := by
  refine ⟨by decide, by decide⟩

/-- C10 (confirmed). The encoder writes the captured-page counter
`dataPages` as the value of the `Pages total:` line (line index 8), and, when
the completeness flag is false, also as the value of the `Pages read:` line
(line index 9); the declared total page count is never serialized — the
encoded lines are unchanged under any `totalPages`. -/
theorem claim_C10 (d : TagDump) (t : Int) :
    save_lines { d with totalPages := t } = save_lines d
    ∧ (save_lines d).get? 8 = some ("Pages total: ".data ++ intToStr d.dataPages)
    ∧ (d.pageReadSuccess = false →
        (save_lines d).get? 9 = some ("Pages read: ".data ++ intToStr d.dataPages)) := by
  refine ⟨rfl, rfl, ?_⟩
  intro h
  simp [save_lines, h]

/-- C10 witness: on the sample dump (incomplete capture, `dataPages = 2`,
`totalPages = 64`), the encoding ignores `totalPages` and writes `dataPages`
on both counter lines. -/
theorem claim_C10_witness :
    save_lines { dumpW with totalPages := 99 } = save_lines dumpW
    ∧ (save_lines dumpW).get? 8 = some ("Pages total: ".data ++ intToStr dumpW.dataPages)
    ∧ (save_lines dumpW).get? 9 = some ("Pages read: ".data ++ intToStr dumpW.dataPages) :=
  ⟨(claim_C10 dumpW 99).1, (claim_C10 dumpW 99).2.1, (claim_C10 dumpW 99).2.2 rfl⟩

/-- C2 (confirmed). `read` returns TagNotPresent exactly when detection or
the serial read fails; otherwise it returns Success unconditionally, latches
the accessor status in `pageReadStatus`, sets the completeness flag from that
status, and formats the (possibly partial) dump. -/
theorem claim_C2 (env : Env) (f : Bool) (s0 : DumpSt) (out : ReadOut)
    (h : read env f s0 = some out) :
    ((out.result = RfResult.tagNotPresent) ↔ ¬(env.newCardPresent = true ∧ env.readCardSerial = true))
    ∧ ((env.newCardPresent = true ∧ env.readCardSerial = true) →
        out.result = RfResult.success ∧ out.dumpFormatted = true
        ∧ read_data_blocks env = some (out.pageReadStatus, out.st)
        ∧ out.pageReadSuccess = (out.pageReadStatus == RfResult.success))
    ∧ (¬(env.newCardPresent = true ∧ env.readCardSerial = true) →
        out = ⟨RfResult.tagNotPresent, RfResult.failure, f, false, s0⟩) := by
  by_cases hp : env.newCardPresent = true ∧ env.readCardSerial = true
  · rw [read, if_pos hp] at h
    rcases heq : read_data_blocks env with _ | r
    · rw [heq] at h; simp at h
    · rw [heq] at h
      have h' := Option.some.inj h
      subst h'
      refine ⟨by simp [hp], fun _ => ⟨rfl, rfl, by simp [heq], rfl⟩, fun hc => absurd hp hc⟩
  · rw [read, if_neg hp] at h
    simp only [Option.some.injEq] at h
    subst h
    exact ⟨by simp [hp], fun hc => absurd hc hp, fun _ => rfl⟩

/-- C2 witness: a present tag of unsupported family — the block read fails
(`pageReadStatus = FAILURE`, flag false), yet `read` itself returns Success
and formats the dump. -/
theorem claim_C2_witness :
    ((outC2x.result = RfResult.tagNotPresent) ↔
      ¬(envC2x.newCardPresent = true ∧ envC2x.readCardSerial = true))
    ∧ ((envC2x.newCardPresent = true ∧ envC2x.readCardSerial = true) →
        outC2x.result = RfResult.success ∧ outC2x.dumpFormatted = true
        ∧ read_data_blocks envC2x = some (outC2x.pageReadStatus, outC2x.st)
        ∧ outC2x.pageReadSuccess = (outC2x.pageReadStatus == RfResult.success))
    ∧ (¬(envC2x.newCardPresent = true ∧ envC2x.readCardSerial = true) →
        outC2x = ⟨RfResult.tagNotPresent, RfResult.failure, false, false, initDump⟩) :=
  claim_C2 envC2x false initDump outC2x (by decide)

/-- The block loop only appends `readBlock` effects. -/
theorem read_classic_blocks_effects (env : Env) (first : Nat) :
    ∀ offs st, ∃ l, (read_classic_blocks env first offs st).2.effects = st.effects ++ l
      ∧ ∀ e ∈ l, ∃ a, e = Effect.readBlock a := by
  intro offs
  induction offs with
  | nil => intro st; exact ⟨[], by simp [read_classic_blocks], by simp⟩
  | cons off rest ih =>
    intro st
    rcases horacle : env.readOracle (first + off) with bytes | _ | _
    · obtain ⟨l, hl, hall⟩ := ih
        { st with
          pages := st.pages ++ [pageLine st.dataPages (bytesHex16 bytes)],
          dataPages := st.dataPages + 1,
          effects := st.effects ++ [.readBlock (first + off)] }
      refine ⟨Effect.readBlock (first + off) :: l, ?_, ?_⟩
      · simp [read_classic_blocks, horacle] at hl ⊢
        rw [hl]
      · intro e he
        rcases List.mem_cons.mp he with rfl | he'
        · exact ⟨first + off, rfl⟩
        · exact hall e he'
    · refine ⟨[Effect.readBlock (first + off)], ?_, ?_⟩
      · simp [read_classic_blocks, horacle]
      · intro e he
        rcases List.mem_cons.mp he with rfl | he'
        · exact ⟨first + off, rfl⟩
        · simp at he'
    · refine ⟨[Effect.readBlock (first + off)], ?_, ?_⟩
      · simp [read_classic_blocks, horacle]
      · intro e he
        rcases List.mem_cons.mp he with rfl | he'
        · exact ⟨first + off, rfl⟩
        · simp at he'

/-- The block loop never consults the authentication oracle. -/
theorem read_classic_blocks_auth_free (env : Env) (f : KeyType → Nat → Key → Bool) (first : Nat) :
    ∀ offs st, read_classic_blocks { env with authOracle := f } first offs st =
      read_classic_blocks env first offs st := by
  intro offs
  induction offs with
  | nil => intro st; rfl
  | cons off rest ih =>
    intro st
    rcases horacle : env.readOracle (first + off) with bytes | _ | _ <;>
      simp [read_classic_blocks, horacle, ih]

/-- The block loop's result, page list and counters do not depend on the
effect log carried in. -/
theorem read_classic_blocks_state (env : Env) (first : Nat) :
    ∀ offs st₁ st₂, st₁.dataPages = st₂.dataPages → st₁.pages = st₂.pages →
      st₁.totalPages = st₂.totalPages →
      ((read_classic_blocks env first offs st₁).1 = (read_classic_blocks env first offs st₂).1
       ∧ (read_classic_blocks env first offs st₁).2.dataPages =
          (read_classic_blocks env first offs st₂).2.dataPages
       ∧ (read_classic_blocks env first offs st₁).2.pages =
          (read_classic_blocks env first offs st₂).2.pages
       ∧ (read_classic_blocks env first offs st₁).2.totalPages =
          (read_classic_blocks env first offs st₂).2.totalPages) := by
  intro offs
  induction offs with
  | nil => intro st₁ st₂ hd hp ht; exact ⟨rfl, hd, hp, ht⟩
  | cons off rest ih =>
    intro st₁ st₂ hd hp ht
    rcases horacle : env.readOracle (first + off) with bytes | _ | _
    · simp only [read_classic_blocks, horacle]
      exact ih _ _ (by simp [hd]) (by simp [hp, hd]) (by simp [ht])
    · simp [read_classic_blocks, horacle, hd, hp, ht]
    · simp [read_classic_blocks, horacle, hd, hp, ht]

/-- One unfolding step of the sector loop. -/
theorem read_classic_sectors_cons (env : Env) (s : Nat) (rest : List Nat) (st : DumpSt) :
    read_classic_sectors env (s :: rest) st =
      (if (read_mifare_classic_data_sector env s st).1 = RfResult.success
       then read_classic_sectors env rest (read_mifare_classic_data_sector env s st).2
       else read_mifare_classic_data_sector env s st) := rfl

/-- C5 (amended). During a MIFARE Classic read each sector is authenticated
once, with all its dictionary attempts issued before any of its block reads;
the authentication result is ignored (the source's abort check is commented
out), so the sector outcome, page data and counters are unchanged under any
authentication oracle; what aborts the remaining read is a failing block
read, the sector loop stopping at the first sector whose result is not
Success. -/
theorem claim_C5 (env : Env) (sector : Nat) (st : DumpSt) (hs : sector < 40) :
    (∃ l, (read_mifare_classic_data_sector env sector st).2.effects =
        st.effects ++ (authenticate_mifare_classic env (firstBlockOf sector)).2 ++ l
      ∧ ∀ e ∈ l, ∃ a, e = Effect.readBlock a)
    ∧ (∀ f, ((read_mifare_classic_data_sector { env with authOracle := f } sector st).1 =
          (read_mifare_classic_data_sector env sector st).1
        ∧ (read_mifare_classic_data_sector { env with authOracle := f } sector st).2.pages =
          (read_mifare_classic_data_sector env sector st).2.pages
        ∧ (read_mifare_classic_data_sector { env with authOracle := f } sector st).2.dataPages =
          (read_mifare_classic_data_sector env sector st).2.dataPages))
    ∧ (∀ rest, (read_mifare_classic_data_sector env sector st).1 ≠ RfResult.success →
        read_classic_sectors env (sector :: rest) st =
          read_mifare_classic_data_sector env sector st) := by
  refine ⟨?_, ?_, ?_⟩
  · by_cases h32 : sector < 32
    · obtain ⟨l, hl, hall⟩ := read_classic_blocks_effects env (sector * 4) (List.range 4)
        { st with effects := st.effects ++ (authenticate_mifare_classic env (sector * 4)).2 }
      refine ⟨l, ?_, hall⟩
      simp only [read_mifare_classic_data_sector, if_pos h32, firstBlockOf]
      simpa using hl
    · obtain ⟨l, hl, hall⟩ := read_classic_blocks_effects env (128 + (sector - 32) * 16)
        (List.range 16)
        { st with effects :=
            st.effects ++ (authenticate_mifare_classic env (128 + (sector - 32) * 16)).2 }
      refine ⟨l, ?_, hall⟩
      simp only [read_mifare_classic_data_sector, if_neg h32, if_pos hs, firstBlockOf]
      simpa using hl
  · intro f
    by_cases h32 : sector < 32
    · simp only [read_mifare_classic_data_sector, if_pos h32]
      rw [read_classic_blocks_auth_free env f]
      have hst := read_classic_blocks_state env (sector * 4) (List.range 4)
        { st with effects :=
            st.effects ++ (authenticate_mifare_classic { env with authOracle := f } (sector * 4)).2 }
        { st with effects := st.effects ++ (authenticate_mifare_classic env (sector * 4)).2 }
        rfl rfl rfl
      exact ⟨hst.1, hst.2.2.1, hst.2.1⟩
    · simp only [read_mifare_classic_data_sector, if_neg h32, if_pos hs]
      rw [read_classic_blocks_auth_free env f]
      have hst := read_classic_blocks_state env (128 + (sector - 32) * 16) (List.range 16)
        { st with effects :=
            st.effects ++ (authenticate_mifare_classic { env with authOracle := f }
              (128 + (sector - 32) * 16)).2 }
        { st with effects :=
            st.effects ++ (authenticate_mifare_classic env (128 + (sector - 32) * 16)).2 }
        rfl rfl rfl
      exact ⟨hst.1, hst.2.2.1, hst.2.1⟩
  · intro rest h
    rw [read_classic_sectors_cons, if_neg h]

/-- C5 witness: sector 0 of the sample 1K environment — its effect log is the
authentication attempts followed by block reads only, its outcome is
authentication-oracle independent, and a non-Success sector stops the loop. -/
theorem claim_C5_witness :
    (∃ l, (read_mifare_classic_data_sector envBase 0 initDump).2.effects =
        initDump.effects ++ (authenticate_mifare_classic envBase (firstBlockOf 0)).2 ++ l
      ∧ ∀ e ∈ l, ∃ a, e = Effect.readBlock a)
    ∧ (∀ f, ((read_mifare_classic_data_sector { envBase with authOracle := f } 0 initDump).1 =
          (read_mifare_classic_data_sector envBase 0 initDump).1
        ∧ (read_mifare_classic_data_sector { envBase with authOracle := f } 0 initDump).2.pages =
          (read_mifare_classic_data_sector envBase 0 initDump).2.pages
        ∧ (read_mifare_classic_data_sector { envBase with authOracle := f } 0 initDump).2.dataPages =
          (read_mifare_classic_data_sector envBase 0 initDump).2.dataPages))
    ∧ (∀ rest, (read_mifare_classic_data_sector envBase 0 initDump).1 ≠ RfResult.success →
        read_classic_sectors envBase (0 :: rest) initDump =
          read_mifare_classic_data_sector envBase 0 initDump) :=
  claim_C5 envBase 0 initDump (by decide)

/-- C5 counterexample: a MIFARE Mini tag rejecting all 160 dictionary
attempts for every sector, yet answering block reads — the claim requires the
read to abort with a non-Success result at the first failed sector
authentication, but the full read returns Success. -/
theorem claim_C5_counterexample :
    (authenticate_mifare_classic envC5x 0).1 = RfResult.tagAuthError
    ∧ (read_mifare_classic_data_blocks envC5x initDump).1 = RfResult.success := by
  refine ⟨by decide, by decide⟩

/-- With a fully answering tag the block loop succeeds and counts one page
per block. -/
theorem read_classic_blocks_all_ok (env : Env)
    (hok : ∀ a, ∃ bs, env.readOracle a = ReadResp.ok bs) (first : Nat) :
    ∀ offs st, (read_classic_blocks env first offs st).1 = RfResult.success
      ∧ (read_classic_blocks env first offs st).2.dataPages = st.dataPages + offs.length
      ∧ (read_classic_blocks env first offs st).2.totalPages = st.totalPages := by
  intro offs
  induction offs with
  | nil => intro st; exact ⟨rfl, by simp [read_classic_blocks], rfl⟩
  | cons off rest ih =>
    intro st
    obtain ⟨bs, hbs⟩ := hok (first + off)
    have h := ih { st with
      pages := st.pages ++ [pageLine st.dataPages (bytesHex16 bs)],
      dataPages := st.dataPages + 1,
      effects := st.effects ++ [.readBlock (first + off)] }
    simp only [read_classic_blocks, hbs]
    refine ⟨h.1, ?_, h.2.2⟩
    have h21 := h.2.1
    simp only [List.length_cons] at h21 ⊢
    omega

/-- With a fully answering tag a 4-block sector read succeeds and adds four
pages. -/
theorem read_sector_all_ok (env : Env)
    (hok : ∀ a, ∃ bs, env.readOracle a = ReadResp.ok bs) (sector : Nat) (hs : sector < 32) :
    ∀ st, (read_mifare_classic_data_sector env sector st).1 = RfResult.success
      ∧ (read_mifare_classic_data_sector env sector st).2.dataPages = st.dataPages + 4
      ∧ (read_mifare_classic_data_sector env sector st).2.totalPages = st.totalPages := by
  intro st
  simp only [read_mifare_classic_data_sector, if_pos hs]
  have h := read_classic_blocks_all_ok env hok (sector * 4) (List.range 4)
    { st with effects := st.effects ++ (authenticate_mifare_classic env (sector * 4)).2 }
  exact ⟨h.1, by simpa using h.2.1, h.2.2⟩

/-- With a fully answering tag the sector loop over sectors 0-31 succeeds and
adds four pages per sector. -/
theorem read_sectors_all_ok (env : Env)
    (hok : ∀ a, ∃ bs, env.readOracle a = ReadResp.ok bs) :
    ∀ l, (∀ s ∈ l, s < 32) → ∀ st,
      (read_classic_sectors env l st).1 = RfResult.success
      ∧ (read_classic_sectors env l st).2.dataPages = st.dataPages + 4 * l.length
      ∧ (read_classic_sectors env l st).2.totalPages = st.totalPages := by
  intro l
  induction l with
  | nil => intro _ st; exact ⟨rfl, by simp [read_classic_sectors], rfl⟩
  | cons sctr rest ih =>
    intro hall st
    have hsec := read_sector_all_ok env hok sctr (hall sctr (List.mem_cons_self sctr rest)) st
    rw [read_classic_sectors_cons, if_pos hsec.1]
    have h := ih (fun x hx => hall x (List.mem_cons_of_mem sctr hx))
      (read_mifare_classic_data_sector env sctr st).2
    refine ⟨h.1, ?_, by rw [h.2.2, hsec.2.2]⟩
    rw [h.2.1, hsec.2.1]
    simp only [List.length_cons]
    push_cast
    ring

/-- C8 (amended). A successful full read of a MIFARE 1K tag (16 sectors, all
block reads answered) reports Success with `totalPages = 64`, the
completeness flag true, and `dataPages = 64`: the read loop captures every
block of every sector, including the 16 sector trailers and block 0. -/
theorem claim_C8 (env : Env) (f : Bool) (s0 : DumpSt)
    (ht : env.piccType = PiccType.classic1k) (hp : env.newCardPresent = true)
    (hs : env.readCardSerial = true) (hok : ∀ a, ∃ bs, env.readOracle a = ReadResp.ok bs) :
    (read env f s0).map
      (fun o => (o.result, o.pageReadStatus, o.pageReadSuccess, o.st.dataPages, o.st.totalPages))
      = some (RfResult.success, RfResult.success, true, 64, 64) := by
  have hsect := read_sectors_all_ok env hok (List.range 16)
    (by intro s hs'; simp [List.mem_range] at hs'; omega) { initDump with totalPages := (64 : Int) }
  obtain ⟨ha, hb, hc⟩ := hsect
  rw [read, if_pos ⟨hp, hs⟩]
  simp only [read_data_blocks, read_mifare_classic_data_blocks, ht]
  simp only [initDump] at ha hb hc
  norm_num at hb hc
  simp [ha, hb, hc, initDump]

/-- C8 witness: the sample all-answering 1K environment realizes the
hypotheses and the stated outcome. -/
theorem claim_C8_witness :
    (read envBase true initDump).map
      (fun o => (o.result, o.pageReadStatus, o.pageReadSuccess, o.st.dataPages, o.st.totalPages))
      = some (RfResult.success, RfResult.success, true, 64, 64) :=
  claim_C8 envBase true initDump rfl rfl rfl (fun _ => ⟨List.replicate 16 0, rfl⟩)

/-- C8 counterexample: the successful full 1K read yields `dataPages = 64`,
not the 47 the claim states (trailer blocks and block 0 are captured too). -/
theorem claim_C8_counterexample :
    ((read envBase true initDump).map (fun o => o.st.dataPages) = some 64)
    ∧ ¬((read envBase true initDump).map (fun o => o.st.dataPages) = some 47)
    ∧ ((read envBase true initDump).map (fun o => (o.pageReadSuccess, o.st.totalPages))
        = some (true, 64)) := by
  refine ⟨by decide, by decide, by decide⟩

/-- Pair grouping halves the character count, rounding up. -/
theorem hexPairs_length : ∀ l : Str, (hexPairs l).length = (l.length + 1) / 2
  | [] => rfl
  | [_] => by simp [hexPairs]
  | a :: b :: rest => by
    simp [hexPairs, hexPairs_length rest, List.length_cons]
    omega

/-- Line loop of `write_data_blocks` on an Ultralight session whose writes
all succeed: the loop succeeds, and a transport write is issued exactly for
the dump lines whose parsed index lies in `4 ≤ index < dataPages - 5`. -/
theorem wdb_go_ul (env : Env) (hUL : env.piccType = PiccType.ultralight)
    (hok : ∀ a, env.ulWriteOracle a = true) :
    ∀ lines, (write_data_blocks_go env lines).1 = RfResult.success
      ∧ (∀ j b, Effect.writeUL j b ∈ (write_data_blocks_go env lines).2 ↔
          ∃ line ∈ lines, ¬((parsePageLine line).1 < 4)
            ∧ ¬((parsePageLine line).1 ≥ env.dataPages - 5)
            ∧ j = ((parsePageLine line).1 % 256).toNat
            ∧ b = hexPairsToBytes (parsePageLine line).2) := by
  intro lines
  induction lines with
  | nil => exact ⟨rfl, by simp [write_data_blocks_go]⟩
  | cons line rest ih =>
    by_cases h0 : (parsePageLine line).1 == 0
    · have h0' : (parsePageLine line).1 = 0 := by simpa using h0
      have hgo : write_data_blocks_go env (line :: rest) = write_data_blocks_go env rest := by
        simp [write_data_blocks_go, h0]
      refine ⟨hgo ▸ ih.1, ?_⟩
      intro j b
      rw [hgo, ih.2 j b]
      constructor
      · rintro ⟨l, hl, hrest⟩
        exact ⟨l, List.mem_cons_of_mem line hl, hrest⟩
      · rintro ⟨l, hl, hc1, hrest⟩
        rcases List.mem_cons.mp hl with rfl | hl'
        · exfalso
          exact hc1 (by omega)
        · exact ⟨l, hl', hc1, hrest⟩
    · by_cases hskip : (parsePageLine line).1 < 4 ∨ (parsePageLine line).1 ≥ env.dataPages - 5
      · have hgo : write_data_blocks_go env (line :: rest) = write_data_blocks_go env rest := by
          simp only [write_data_blocks_go, if_neg h0, hUL]
          simp only [if_pos hskip]
        refine ⟨hgo ▸ ih.1, ?_⟩
        intro j b
        rw [hgo, ih.2 j b]
        constructor
        · rintro ⟨l, hl, hrest⟩
          exact ⟨l, List.mem_cons_of_mem line hl, hrest⟩
        · rintro ⟨l, hl, hc1, hc2, hrest⟩
          rcases List.mem_cons.mp hl with rfl | hl'
          · rcases hskip with hsk | hsk
            · exact absurd hsk hc1
            · exact absurd hsk hc2
          · exact ⟨l, hl', hc1, hc2, hrest⟩
      · have hns : ¬((parsePageLine line).1 < 4 ∨ (parsePageLine line).1 ≥ env.dataPages - 5) :=
          hskip
        have hsk1 : ¬((parsePageLine line).1 < 4) := fun hc => hns (Or.inl hc)
        have hsk2 : ¬((parsePageLine line).1 ≥ env.dataPages - 5) := fun hc => hns (Or.inr hc)
        have hw : env.ulWriteOracle (((parsePageLine line).1 % 256).toNat) = true := hok _
        have hgo : write_data_blocks_go env (line :: rest) =
            ((write_data_blocks_go env rest).1,
             Effect.writeUL (((parsePageLine line).1 % 256).toNat)
                (hexPairsToBytes (parsePageLine line).2) :: (write_data_blocks_go env rest).2) := by
          simp only [write_data_blocks_go, if_neg h0, hUL]
          simp only [if_neg hns]
          simp [write_mifare_ultralight_data_block, hw]
        rw [hgo]
        refine ⟨ih.1, ?_⟩
        intro j b
        simp only [List.mem_cons]
        constructor
        · rintro (heq | hmem)
          · injection heq with h1 h2
            exact ⟨line, Or.inl rfl, hsk1, hsk2, h1, h2⟩
          · obtain ⟨l, hl, hrest⟩ := (ih.2 j b).mp hmem
            exact ⟨l, Or.inr hl, hrest⟩
        · rintro ⟨l, hl, hc1, hc2, hj, hb⟩
          rcases hl with rfl | hl'
          · exact Or.inl (by rw [hj, hb])
          · exact Or.inr ((ih.2 j b).mpr ⟨l, hl', hc1, hc2, hj, hb⟩)

/-- C7 (amended). Writing a dump to a MIFARE Ultralight tag skips, without
error and with no transport call, every page whose index is below 4 or at or
above `dataPages - 5` — the bound is the captured-page counter `dataPages`,
not the declared total page count; every other page in the dump is written,
with exactly 4 bytes whenever its line carries 8 hex digits. -/
theorem claim_C7 (env : Env) (hUL : env.piccType = PiccType.ultralight)
    (hok : ∀ a, env.ulWriteOracle a = true) :
    (write_data_blocks env).1 = RfResult.success
    ∧ (∀ j b, Effect.writeUL j b ∈ (write_data_blocks env).2 ↔
        ∃ line ∈ env.dumpLines, ¬((parsePageLine line).1 < 4)
          ∧ ¬((parsePageLine line).1 ≥ env.dataPages - 5)
          ∧ j = ((parsePageLine line).1 % 256).toNat
          ∧ b = hexPairsToBytes (parsePageLine line).2)
    ∧ ((∀ l ∈ env.dumpLines, ((parsePageLine l).2.filter (fun c => !(c == ' '))).length = 8) →
        ∀ j b, Effect.writeUL j b ∈ (write_data_blocks env).2 → b.length = 4) := by
  obtain ⟨h1, h2⟩ := wdb_go_ul env hUL hok env.dumpLines
  refine ⟨h1, h2, ?_⟩
  intro hlen j b hmem
  obtain ⟨line, hline, _, _, _, hb⟩ := (h2 j b).mp hmem
  rw [hb]
  simp [hexPairsToBytes, hexPairs_length, hlen line hline]

/-- C7 witness: the NTAG213-style session (`dataPages = 47`) writes exactly
its in-range pages; page 41 with data `AA BB CC DD` is written with 4
bytes. -/
theorem claim_C7_witness :
    (write_data_blocks envC7x).1 = RfResult.success
    ∧ (∀ j b, Effect.writeUL j b ∈ (write_data_blocks envC7x).2 ↔
        ∃ line ∈ envC7x.dumpLines, ¬((parsePageLine line).1 < 4)
          ∧ ¬((parsePageLine line).1 ≥ envC7x.dataPages - 5)
          ∧ j = ((parsePageLine line).1 % 256).toNat
          ∧ b = hexPairsToBytes (parsePageLine line).2)
    ∧ ((∀ l ∈ envC7x.dumpLines,
          ((parsePageLine l).2.filter (fun c => !(c == ' '))).length = 8) →
        ∀ j b, Effect.writeUL j b ∈ (write_data_blocks envC7x).2 → b.length = 4) :=
  claim_C7 envC7x rfl (fun _ => rfl)

/-- C7 counterexample: the session holds `totalPages = 45` and `dataPages =
47`; page 41 lies within the last 5 pages relative to the declared total
page count (41 ≥ 45 - 5), so the claim requires it to be skipped with no
transport call — but the code's bound is `dataPages - 5 = 42`, and the write
for page 41 is issued. -/
theorem claim_C7_counterexample :
    envC7x.totalPages = 45
    ∧ (41 : Int) ≥ envC7x.totalPages - 5
    ∧ (write_data_blocks envC7x).1 = RfResult.success
    ∧ Effect.writeUL 41 [0xAA, 0xBB, 0xCC, 0xDD] ∈ (write_data_blocks envC7x).2 := by
  refine ⟨by decide, by decide, by decide, by decide⟩

/-- All 64 burst starts. -/
theorem burstStartsFrom_zero : burstStartsFrom 0 = burstStarts := by
  simp [burstStartsFrom, burstStarts]

/-- Unfolding one burst start. -/
theorem burstStartsFrom_succ (k : Nat) (h : k < 64) :
    burstStartsFrom k = 4 * k :: burstStartsFrom (k + 1) := by
  have h64 : 64 - k = (64 - (k + 1)) + 1 := by omega
  rw [burstStartsFrom, h64, List.range_succ_eq_map]
  simp only [List.map_cons, List.map_map, Nat.add_zero]
  refine congrArg (4 * k :: ·) ?_
  rw [burstStartsFrom]
  apply List.map_congr_left
  intro j _
  simp [Function.comp]
  omega

/-- The head of the burst list. -/
theorem burstStarts_cons : burstStarts = 0 :: burstStartsFrom 1 := by
  rw [← burstStartsFrom_zero, burstStartsFrom_succ 0 (by omega)]

/-- The fuelled byte-wrapping loop agrees with the list rendering of the
remaining burst starts. -/
theorem ul_go_eq_processBursts (env : Env) :
    ∀ fuel k st, fuel = 64 - k → k ≤ 64 →
      ul_go env fuel (4 * k) st = processBursts env (burstStartsFrom k) st := by
  intro fuel
  induction fuel with
  | zero =>
    intro k st hf hk
    have hk64 : k = 64 := by omega
    subst hk64
    simp [ul_go, processBursts, burstStartsFrom]
  | succ fuel ih =>
    intro k st hf hk
    have hklt : k < 64 := by omega
    rw [burstStartsFrom_succ k hklt]
    have hpage : 4 * k ≤ 252 := by omega
    simp only [ul_go, processBursts, if_pos hpage]
    rcases horacle : env.readOracle (4 * k) with bytes | _ | _
    · dsimp only
      by_cases hk63 : k = 63
      · subst hk63
        have hf0 : fuel = 0 := by omega
        subst hf0
        simp [ul_go, processBursts, burstStartsFrom]
      · have hmod : (4 * k + 4) % 256 = 4 * (k + 1) := by omega
        rw [hmod]
        exact ih (k + 1) _ (by omega) (by omega)
    · rfl
    · rfl

/-- `read_mifare_ultralight_data_blocks` processes exactly the 64 burst
starts. -/
theorem read_ul_eq (env : Env) (st : DumpSt) :
    read_mifare_ultralight_data_blocks env st = processBursts env burstStarts st := by
  rw [read_mifare_ultralight_data_blocks, ← burstStartsFrom_zero]
  exact ul_go_eq_processBursts env 64 0 st (by omega) (by omega)

/-- One page step never touches the effect log. -/
theorem ul_offset_step_effects (page : Nat) (bytes : List Nat) (st : DumpSt) (offset : Nat) :
    (ul_offset_step page bytes st offset).effects = st.effects := by
  simp only [ul_offset_step, ul_cc_update]
  split_ifs <;> rfl

/-- One page step past the first burst never touches `totalPages`. -/
theorem ul_offset_step_totalPages {page : Nat} (h4 : 4 ≤ page) (bytes : List Nat)
    (st : DumpSt) (offset : Nat) :
    (ul_offset_step page bytes st offset).totalPages = st.totalPages := by
  have hne : (page + offset == 3) = false := by
    simp only [beq_eq_false_iff_ne, ne_eq]
    omega
  simp [ul_offset_step, ul_cc_update, hne]

/-- A burst never touches the effect log. -/
theorem ul_burst_effects (page : Nat) (bytes : List Nat) (st : DumpSt) :
    (ul_burst page bytes st).effects = st.effects := by
  have hgen : ∀ (l : List Nat) st, ((l.foldl (ul_offset_step page bytes) st) : DumpSt).effects
      = st.effects := by
    intro l
    induction l with
    | nil => intro st; rfl
    | cons o rest ih =>
      intro st
      simp only [List.foldl_cons]
      rw [ih, ul_offset_step_effects]
  exact hgen _ st

/-- A burst past the first one never touches `totalPages`. -/
theorem ul_burst_totalPages {page : Nat} (h4 : 4 ≤ page) (bytes : List Nat) (st : DumpSt) :
    (ul_burst page bytes st).totalPages = st.totalPages := by
  have hgen : ∀ (l : List Nat) st, ((l.foldl (ul_offset_step page bytes) st) : DumpSt).totalPages
      = st.totalPages := by
    intro l
    induction l with
    | nil => intro st; rfl
    | cons o rest ih =>
      intro st
      simp only [List.foldl_cons]
      rw [ih, ul_offset_step_totalPages h4]
  exact hgen _ st

/-- The first burst sets `totalPages` from the capability-container byte
(burst byte 14, page 3 offset 2). -/
theorem ul_burst_zero_totalPages (bytes : List Nat) (st : DumpSt) :
    (ul_burst 0 bytes st).totalPages =
      (if bytes.getD 14 0 == 0x12 then 45
       else if bytes.getD 14 0 == 0x3E then 135
       else if bytes.getD 14 0 == 0x6D then 231 else st.totalPages) := by
  show (ul_offset_step 0 bytes (ul_offset_step 0 bytes (ul_offset_step 0 bytes
      (ul_offset_step 0 bytes st 0) 1) 2) 3).totalPages = _
  unfold ul_offset_step ul_cc_update
  norm_num
  split_ifs <;> rfl

/-- Bursts at pages 4 and beyond preserve `totalPages` through the loop. -/
theorem processBursts_totalPages_tail (env : Env) :
    ∀ l, (∀ p ∈ l, 4 ≤ p) → ∀ st r st',
      processBursts env l st = some (r, st') → st'.totalPages = st.totalPages := by
  intro l
  induction l with
  | nil => intro _ st r st' h; simp [processBursts] at h
  | cons p rest ih =>
    intro hall st r st' h
    simp only [processBursts] at h
    rcases horacle : env.readOracle p with bytes | _ | _ <;> rw [horacle] at h
    · have := ih (fun x hx => hall x (List.mem_cons_of_mem p hx)) _ r st' h
      rw [this, ul_burst_totalPages (hall p (List.mem_cons_self p rest))]
    · simp only [Option.some.injEq, Prod.mk.injEq] at h
      obtain ⟨h1, h2⟩ := h
      rw [← h2]
    · simp only [Option.some.injEq, Prod.mk.injEq] at h
      obtain ⟨h1, h2⟩ := h
      rw [← h2]

/-- The result of a terminated burst loop is decided by the first failing
burst: NACK means Success, any other failure means Failure. -/
theorem processBursts_status (env : Env) :
    ∀ l st r st', processBursts env l st = some (r, st') →
      ∃ p, l.find? (fun q => !(isOkResp (env.readOracle q))) = some p
        ∧ r = (if env.readOracle p == ReadResp.nack then RfResult.success
               else RfResult.failure) := by
  intro l
  induction l with
  | nil => intro st r st' h; simp [processBursts] at h
  | cons p rest ih =>
    intro st r st' h
    simp only [processBursts] at h
    rcases horacle : env.readOracle p with bytes | _ | _ <;> rw [horacle] at h
    · obtain ⟨q, hq, hr⟩ := ih _ r st' h
      refine ⟨q, ?_, hr⟩
      rw [List.find?_cons_of_neg _ (by simp [isOkResp, horacle])]
      exact hq
    · simp only [Option.some.injEq, Prod.mk.injEq] at h
      obtain ⟨h1, h2⟩ := h
      refine ⟨p, ?_, ?_⟩
      · rw [List.find?_cons_of_pos _ (by simp [isOkResp, horacle])]
      · rw [← h1, horacle]
        rfl
    · simp only [Option.some.injEq, Prod.mk.injEq] at h
      obtain ⟨h1, h2⟩ := h
      refine ⟨p, ?_, ?_⟩
      · rw [List.find?_cons_of_pos _ (by simp [isOkResp, horacle])]
      · rw [← h1, horacle]
        rfl

/-- Every effect the burst loop adds is a read of one of its burst starts. -/
theorem processBursts_effects (env : Env) :
    ∀ l st r st', processBursts env l st = some (r, st') →
      ∀ e ∈ st'.effects, e ∈ st.effects ∨ ∃ p ∈ l, e = Effect.readBlock p := by
  intro l
  induction l with
  | nil => intro st r st' h; simp [processBursts] at h
  | cons p rest ih =>
    intro st r st' h e he
    simp only [processBursts] at h
    rcases horacle : env.readOracle p with bytes | _ | _ <;> rw [horacle] at h
    · have hrec := ih _ r st' h e he
      rcases hrec with hin | ⟨q, hq, rfl⟩
      · rw [ul_burst_effects] at hin
        simp only [List.mem_append, List.mem_singleton] at hin
        rcases hin with hin | rfl
        · exact Or.inl hin
        · exact Or.inr ⟨p, List.mem_cons_self p rest, rfl⟩
      · exact Or.inr ⟨q, List.mem_cons_of_mem p hq, rfl⟩
    · simp only [Option.some.injEq, Prod.mk.injEq] at h
      obtain ⟨h1, h2⟩ := h
      rw [← h2] at he
      simp only [List.mem_append, List.mem_singleton] at he
      rcases he with hin | rfl
      · exact Or.inl hin
      · exact Or.inr ⟨p, List.mem_cons_self p rest, rfl⟩
    · simp only [Option.some.injEq, Prod.mk.injEq] at h
      obtain ⟨h1, h2⟩ := h
      rw [← h2] at he
      simp only [List.mem_append, List.mem_singleton] at he
      rcases he with hin | rfl
      · exact Or.inl hin
      · exact Or.inr ⟨p, List.mem_cons_self p rest, rfl⟩

/-- One burst-loop step on an OK read. -/
theorem processBursts_cons_ok (env : Env) (p : Nat) (rest : List Nat) (st : DumpSt)
    (bytes : List Nat) (h : env.readOracle p = ReadResp.ok bytes) :
    processBursts env (p :: rest) st =
      processBursts env rest
        (ul_burst p bytes { st with effects := st.effects ++ [Effect.readBlock p] }) := by
  simp [processBursts, h]

/-- One burst-loop step on a NACK read. -/
theorem processBursts_cons_nack (env : Env) (p : Nat) (rest : List Nat) (st : DumpSt)
    (h : env.readOracle p = ReadResp.nack) :
    processBursts env (p :: rest) st =
      some (RfResult.success, { st with effects := st.effects ++ [Effect.readBlock p] }) := by
  simp [processBursts, h]

/-- One burst-loop step on any other failing read. -/
theorem processBursts_cons_err (env : Env) (p : Nat) (rest : List Nat) (st : DumpSt)
    (h : env.readOracle p = ReadResp.err) :
    processBursts env (p :: rest) st =
      some (RfResult.failure, { st with effects := st.effects ++ [Effect.readBlock p] }) := by
  simp [processBursts, h]

/-- Elements of the burst tail are at least 4k. -/
theorem burstStartsFrom_ge (k : Nat) : ∀ p ∈ burstStartsFrom k, 4 * k ≤ p := by
  intro p hp
  simp only [burstStartsFrom, List.mem_map, List.mem_range] at hp
  obtain ⟨j, _, rfl⟩ := hp
  omega

/-- C6 (confirmed). For an Ultralight read that terminates: the
capability-container byte at page 3 offset 2 (burst byte 14) sets the
declared total page count by 0x12 ↦ 45, 0x3E ↦ 135, 0x6D ↦ 231, and for any
other value (or a failed first burst) the total equals the captured-page
counter `dataPages`; the outcome is decided by the first burst start whose
read is not OK — NACK ends the read with Success, any other error with
Failure; and every page the probe reads is a burst start, a multiple of 4
bounded by 252. -/
theorem claim_C6 (env : Env) (r : RfResult) (st : DumpSt)
    (hUL : env.piccType = PiccType.ultralight)
    (h : read_data_blocks env = some (r, st)) :
    (st.totalPages =
      (match env.readOracle 0 with
       | ReadResp.ok bytes =>
         if bytes.getD 14 0 == 0x12 then 45
         else if bytes.getD 14 0 == 0x3E then 135
         else if bytes.getD 14 0 == 0x6D then 231
         else st.dataPages
       | _ => st.dataPages))
    ∧ (∃ p, burstStarts.find? (fun q => !(isOkResp (env.readOracle q))) = some p
        ∧ r = (if env.readOracle p == ReadResp.nack then RfResult.success
               else RfResult.failure))
    ∧ (∀ p, Effect.readBlock p ∈ st.effects → p % 4 = 0 ∧ p ≤ 252) := by
  simp only [read_data_blocks, hUL] at h
  rcases hraw : read_mifare_ultralight_data_blocks env initDump with _ | rs
  · rw [hraw] at h
    simp at h
  · rw [hraw] at h
    have heq := Option.some.inj h
    have hr : rs.1 = r := congrArg Prod.fst heq
    have hstq : st =
        { rs.2 with
          dataPages :=
            if rs.1 = RfResult.success ∧ rs.2.dataPages > 0 then rs.2.dataPages - 1
            else rs.2.dataPages,
          totalPages :=
            if rs.2.totalPages = 0 then
              (if rs.1 = RfResult.success ∧ rs.2.dataPages > 0 then rs.2.dataPages - 1
               else rs.2.dataPages)
            else rs.2.totalPages,
          effects := rs.2.effects ++ [Effect.halt] } := (congrArg Prod.snd heq).symm
    rw [read_ul_eq] at hraw
    refine ⟨?_, ?_, ?_⟩
    · rw [burstStarts_cons] at hraw
      rcases ho0 : env.readOracle 0 with bytes | _ | _
      · rw [processBursts_cons_ok env 0 _ _ bytes ho0] at hraw
        have htail := processBursts_totalPages_tail env (burstStartsFrom 1)
          (fun p hp => by have := burstStartsFrom_ge 1 p hp; omega) _ rs.1 rs.2 hraw
        rw [ul_burst_zero_totalPages] at htail
        rw [hstq]
        by_cases h1 : bytes.getD 14 0 == 0x12
        · simp only [h1, if_true] at htail ⊢
          simp [htail]
        · by_cases h2 : bytes.getD 14 0 == 0x3E
          · simp only [h1, h2, if_true, Bool.false_eq_true, if_false] at htail ⊢
            simp [htail]
          · by_cases h3 : bytes.getD 14 0 == 0x6D
            · simp only [h1, h2, h3, if_true, Bool.false_eq_true, if_false] at htail ⊢
              simp [htail]
            · simp only [h1, h2, h3, Bool.false_eq_true, if_false] at htail ⊢
              simp only [initDump] at htail
              simp [htail, initDump]
      · rw [processBursts_cons_nack env 0 _ _ ho0] at hraw
        have hsnd := congrArg Prod.snd (Option.some.inj hraw)
        rw [hstq]
        simp [← hsnd, initDump]
      · rw [processBursts_cons_err env 0 _ _ ho0] at hraw
        have hsnd := congrArg Prod.snd (Option.some.inj hraw)
        rw [hstq]
        simp [← hsnd, initDump]
    · obtain ⟨p, hfind, hres⟩ := processBursts_status env burstStarts initDump rs.1 rs.2 hraw
      exact ⟨p, hfind, hr ▸ hres⟩
    · intro p hp
      rw [hstq] at hp
      simp only [List.mem_append, List.mem_singleton] at hp
      rcases hp with hp | hp
      · have := processBursts_effects env burstStarts initDump rs.1 rs.2 hraw _ hp
        rcases this with hin | ⟨q, hq, heq'⟩
        · simp [initDump] at hin
        · simp only [burstStarts, List.mem_map, List.mem_range] at hq
          obtain ⟨k, hk, rfl⟩ := hq
          injection heq' with hpq
          omega
      · exact absurd hp (by simp)

/-- C6 witness: a tag whose first burst carries CC byte 0x12 and which NACKs
at page 4 — the read succeeds with `totalPages = 45`, `dataPages = 3`, and
the capability-container conclusion instantiates to 45. -/
theorem claim_C6_witness :
    read_data_blocks envC6x = some (RfResult.success, stC6x)
    ∧ stC6x.totalPages = 45 := by
  have hread : read_data_blocks envC6x = some (RfResult.success, stC6x) := by decide
  refine ⟨hread, ?_⟩
  have hcc := (claim_C6 envC6x RfResult.success stC6x rfl hread).1
  rw [hcc]
  decide

/-- Index of the first `ch` after a `ch`-free prefix. -/
theorem indexOfOpt_append {ch : Char} :
    ∀ {p : Str}, (∀ a ∈ p, (a == ch) = false) → ∀ r : Str,
      indexOfOpt ch (p ++ ch :: r) = some p.length
  | [], _, r => by simp [indexOfOpt]
  | a :: p, h, r => by
    have ha := h a (List.mem_cons_self a p)
    have hrec := indexOfOpt_append (fun x hx => h x (List.mem_cons_of_mem a hx)) r
    simp only [List.cons_append, indexOfOpt, ha, Bool.false_eq_true, if_false]
    simp [List.append_eq, hrec]

/-- Suffix after the first `ch`, over a `ch`-free prefix. -/
theorem afterFirstAux_append {ch : Char} :
    ∀ {p : Str}, (∀ a ∈ p, (a == ch) = false) → ∀ r : Str,
      afterFirstAux ch (p ++ ch :: r) = some r
  | [], _, r => by simp [afterFirstAux]
  | a :: p, h, r => by
    have ha := h a (List.mem_cons_self a p)
    have hrec := afterFirstAux_append (fun x hx => h x (List.mem_cons_of_mem a hx)) r
    simp only [List.cons_append, afterFirstAux, ha, Bool.false_eq_true, if_false]
    simp [List.append_eq, hrec]

/-- `afterFirst` over a `ch`-free prefix. -/
theorem afterFirst_append {ch : Char} {p : Str} (h : ∀ a ∈ p, (a == ch) = false) (r : Str) :
    afterFirst ch (p ++ ch :: r) = r := by
  simp [afterFirst, afterFirstAux_append h r]

/-- The page-line prefix built by the read loops is colon-free. -/
theorem pageLine_colon_free (i : Int) :
    ∀ a ∈ ("Page ".data ++ intToStr i), (a == ':') = false := by
  intro a ha
  rcases List.mem_append.mp ha with hp | hi
  · fin_cases hp <;> rfl
  · exact intToStr_ne_colon hi

/-- Parsing a page line recovers the record that produced it. -/
theorem parsePageLine_pageLine (i : Int) (d : Str) (hd : trim d = d) :
    parsePageLine (pageLine i d) = (i, d) := by
  have hassoc1 : pageLine i d = ("Page ".data ++ intToStr i) ++ (':' :: (' ' :: d)) := by
    simp [pageLine]
  have hassoc2 : pageLine i d = "Page ".data ++ (intToStr i ++ (':' :: (' ' :: d))) := by
    simp [pageLine]
  have hidx : indexOfOpt ':' (pageLine i d) = some ("Page ".data ++ intToStr i).length := by
    rw [hassoc1]
    exact indexOfOpt_append (pageLine_colon_free i) (' ' :: d)
  have hafter : afterFirst ':' (pageLine i d) = ' ' :: d := by
    rw [hassoc1]
    exact afterFirst_append (pageLine_colon_free i) (' ' :: d)
  have hdropGen : ∀ x : Str, ("Page ".data ++ x).drop 5 = x := fun _ => rfl
  have hdrop : (pageLine i d).drop 5 = intToStr i ++ (':' :: (' ' :: d)) := by
    rw [hassoc2, hdropGen]
  simp only [parsePageLine, hidx, hafter, hdrop]
  rw [show ("Page ".data ++ intToStr i).length - 5 = (intToStr i).length from by simp]
  rw [List.take_left, strToInt_intToStr, trim_cons_space, hd]

/-- The `Filetype` header line matches no parse branch. -/
theorem load_step_filetype (st : TagDump) :
    load_step st ("Filetype: Bruce RFID File".data) = st := rfl

/-- The `Version` header line matches no parse branch. -/
theorem load_step_version (st : TagDump) : load_step st ("Version 1".data) = st := rfl

/-- The first comment line matches no parse branch. -/
theorem load_step_comment1 (st : TagDump) :
    load_step st ("# UID, ATQA and SAK are common for all formats".data) = st := rfl

/-- The second comment line matches no parse branch. -/
theorem load_step_comment2 (st : TagDump) :
    load_step st ("# Memory dump".data) = st := rfl

/-- The device-type line sets `picc_type` from the text after the colon. -/
theorem load_step_device (st : TagDump) (x : Str) :
    load_step st ("Device type: ".data ++ x) = { st with picc_type := trim (' ' :: x) } := rfl

/-- The UID line sets `uid`. -/
theorem load_step_uid (st : TagDump) (x : Str) :
    load_step st ("UID: ".data ++ x) = { st with uid := trim (' ' :: x) } := rfl

/-- The SAK line sets `sak`. -/
theorem load_step_sak (st : TagDump) (x : Str) :
    load_step st ("SAK: ".data ++ x) = { st with sak := trim (' ' :: x) } := rfl

/-- The ATQA line sets `atqa`. -/
theorem load_step_atqa (st : TagDump) (x : Str) :
    load_step st ("ATQA: ".data ++ x) = { st with atqa := trim (' ' :: x) } := rfl

/-- The `Pages total:` line sets `dataPages`. -/
theorem load_step_pagesTotal (st : TagDump) (x : Str) :
    load_step st ("Pages total: ".data ++ x)
      = { st with dataPages := strToInt (trim (' ' :: x)) } := rfl

/-- The `Pages read:` line clears the completeness flag. -/
theorem load_step_pagesRead (st : TagDump) (x : Str) :
    load_step st ("Pages read: ".data ++ x) = { st with pageReadSuccess := false } := rfl

/-- A `Page` line appends its parsed record. -/
theorem load_step_page (st : TagDump) (i : Int) (d : Str) :
    load_step st (pageLine i d)
      = { st with pages := st.pages ++ [parsePageLine (pageLine i d)] } := rfl

/-- Folding the parse loop over encoded page lines appends the records. -/
theorem foldl_pageLines :
    ∀ (rs : List (Int × Str)) (st : TagDump), (∀ r ∈ rs, trim r.2 = r.2) →
      List.foldl load_step st (rs.map (fun r => pageLine r.1 r.2))
        = { st with pages := st.pages ++ rs } := by
  intro rs
  induction rs with
  | nil =>
    intro st _
    cases st
    simp
  | cons r rest ih =>
    intro st h
    simp only [List.map_cons, List.foldl_cons, load_step_page,
      parsePageLine_pageLine r.1 r.2 (h r (List.mem_cons_self r rest))]
    rw [ih _ (fun x hx => h x (List.mem_cons_of_mem r hx))]
    simp

/-- C3 (confirmed). Decoding the text produced by encoding the session dump
restores the dump: every serialized field (device type, UID, SAK, ATQA, page
counter, completeness flag, page records) is parsed back to its original
value, and the fields the format does not carry (`bcc`, `totalPages`) are
session state that `load` leaves untouched. The trim hypotheses state the
format's well-formedness for dumps produced by a read (display fields and
page data carry no surrounding whitespace); unique, non-negative page indices
are the claim's own precondition. -/
theorem claim_C3 (d : TagDump)
    (h1 : trim d.picc_type = d.picc_type) (h2 : trim d.uid = d.uid)
    (h3 : trim d.sak = d.sak) (h4 : trim d.atqa = d.atqa)
    (h5 : ∀ r ∈ d.pages, trim r.2 = r.2)
    (h6 : (d.pages.map (fun r => r.1)).Nodup)
    (h7 : ∀ r ∈ d.pages, 0 ≤ r.1) :
    load_lines (save_lines d) d = d := by
  obtain ⟨p, u, sk, aq, bc, tp, dp, flag, pgs⟩ := d
  simp only at h1 h2 h3 h4 h5
  rw [load_lines, save_lines]
  rw [List.foldl_append, List.foldl_append]
  rw [List.foldl_cons, load_step_filetype, List.foldl_cons, load_step_version,
    List.foldl_cons, load_step_device, List.foldl_cons, load_step_comment1,
    List.foldl_cons, load_step_uid, List.foldl_cons, load_step_sak,
    List.foldl_cons, load_step_atqa, List.foldl_cons, load_step_comment2,
    List.foldl_cons, load_step_pagesTotal, List.foldl_nil]
  rw [trim_cons_space p, h1, trim_cons_space u, h2, trim_cons_space sk, h3,
    trim_cons_space aq, h4, trim_cons_space (intToStr dp), trim_intToStr, strToInt_intToStr]
  cases flag
  · rw [if_neg (show ¬(false = true) by decide)]
    rw [List.foldl_cons, load_step_pagesRead, List.foldl_nil]
    rw [foldl_pageLines pgs _ h5]
    simp
  · rw [if_pos rfl, List.foldl_nil]
    rw [foldl_pageLines pgs _ h5]
    simp

/-- C3 witness: the sample dump (incomplete capture, two page records with
indices 1 and 41) survives an encode-decode round trip unchanged. -/
theorem claim_C3_witness : load_lines (save_lines dumpW) dumpW = dumpW :=
  claim_C3 dumpW (by decide) (by decide) (by decide) (by decide) (by decide) (by decide)
    (by decide)

end BruceRFID
